import Mathlib

/-!
Verification development for the f1-tracker application.

The definitions below are a shallow embedding of the task lifecycle and
scoring handlers of `src/main/index.ts`, of the renderer-side helpers of
the main React component, and of the external-schedule fetch and cache
logic.  Timestamps are modelled as integer milliseconds; a task deadline
(a `YYYY-MM-DD` string in the source) is modelled as the millisecond
instant of the local start of that day, which is the only way the source
ever uses it (`ymdToDate` for lateness, `deadline + "T10:00:00"` for the
notification target).  JavaScript numbers arriving in payloads are
modelled as either NaN or a finite rational; `Number.isFinite` / rounding
behave as in the source.  SQLite rows are held in a list; `SELECT ... WHERE
id = ?` is `List.find?`, `UPDATE ... WHERE id = ?` is a conditional map,
`DELETE` a filter, and autoincrement ids come from a monotone counter.
-/

namespace F1Tracker

/-- One day in milliseconds (`1000 * 60 * 60 * 24` in the source). -/
def dayMs : Int := 86400000

/-- 10:00 local time as an offset from the start of a day; the notification
target is `deadline` day at 10:00 (`${task.deadline}T10:00:00`). -/
def notifHourMs : Int := 36000000

/-- The 24-hour freshness window of the renderer schedule caches
(`24 * 3600 * 1000`). -/
def freshnessWindowMs : Int := 86400000

/-- A JavaScript number as it arrives in an IPC payload: NaN (or ±Infinity,
which `clampInt` treats identically) or a finite value. -/
inductive JSNumber where
  | nan : JSNumber
  | fin (q : ℚ) : JSNumber
deriving DecidableEq

/-- JavaScript `String.prototype.trim`: strip leading and trailing
whitespace (structurally, so that states evaluate inside the kernel). -/
def jsTrim (s : String) : String :=
  ⟨((s.data.dropWhile Char.isWhitespace).reverse.dropWhile Char.isWhitespace).reverse⟩

/-- `Math.trunc` of a rational: truncation toward zero.  For a normalized
rational this is integer T-division of numerator by denominator. -/
def jsTrunc (q : ℚ) : Int := q.num / (q.den : Int)

/-- Embeds `clampInt` of `src/main/index.ts`: non-finite input yields the
lower bound, otherwise the truncated value clamped into `[min, max]`. -/
def clampInt (v : JSNumber) (lo hi : Int) : Int :=
  match v with
  | .nan => lo
  | .fin q => max lo (min hi (jsTrunc q))

/-- A row of the `tasks` table (columns of `db.ts` after `ensureColumns`,
restricted to the fields the handlers read or write). -/
structure Task where
  id : Nat
  title : String
  session_type : String
  status : String
  laps_total : Int
  laps_done : Int
  created_at : Int
  deadline : Option Int
  finished_at : Option Int
  points_base : Int
  points_bonus : Int
  points_penalty : Int
  points_total : Int
  points_session_type : String
deriving DecidableEq

/-- A pending `setTimeout` handle registered in `notifTimers`, together
with the instant at which its callback runs. -/
structure Timer where
  id : Nat
  target : Int
  title : String
deriving DecidableEq

/-- The mutable state of the main process: the `tasks` table, the SQLite
autoincrement counter, and the `notifTimers` map (as a list of pending
timers; uniqueness of ids is proved, not assumed). -/
structure Sys where
  tasks : List Task
  nextId : Nat
  timers : List Timer
deriving DecidableEq

/-- The empty database with no pending timers. -/
def initSys : Sys := { tasks := [], nextId := 1, timers := [] }

/-- Payload of `tasks:create`; `none` models an absent (`undefined`) field,
handled by the source's `?? default`. -/
structure CreatePayload where
  title : Option String := none
  session_type : Option String := none
  status : Option String := none
  laps_total : Option JSNumber := none
  laps_done : Option JSNumber := none
  deadline : Option Int := none
deriving DecidableEq

/-- Payload of `tasks:update`; `none` models an absent field (the source
checks `payload?.field !== undefined`).  The `deadline` field distinguishes
absent (`none`) from explicitly null (`some none`). -/
structure UpdatePayload where
  id : Nat
  title : Option String := none
  session_type : Option String := none
  status : Option String := none
  laps_total : Option JSNumber := none
  laps_done : Option JSNumber := none
  deadline : Option (Option Int) := none
deriving DecidableEq

/-- Errors thrown by the task handlers. -/
inductive AppError where
  | titleRequired
  | idRequired
  | taskNotFound
deriving DecidableEq

instance exceptDecEq {ε α : Type} [DecidableEq ε] [DecidableEq α] :
    DecidableEq (Except ε α) := fun x y =>
  match x, y with
  | .ok a, .ok b =>
    if h : a = b then .isTrue (h ▸ rfl) else .isFalse (fun hc => h (Except.ok.inj hc))
  | .error a, .error b =>
    if h : a = b then .isTrue (h ▸ rfl) else .isFalse (fun hc => h (Except.error.inj hc))
  | .ok _, .error _ => .isFalse (fun hc => Except.noConfusion hc)
  | .error _, .ok _ => .isFalse (fun hc => Except.noConfusion hc)

/-- The `payload?.field !== undefined ? f(payload.field) : current` pattern
of the update handler. -/
def optUpd {α β : Type} (o : Option α) (f : α → β) (d : β) : β :=
  match o with
  | some v => f v
  | none => d

/-- `clearNotif`: cancel and drop every pending timer for `id`. -/
def clearNotif (id : Nat) (timers : List Timer) : List Timer :=
  timers.filter (fun tm => tm.id != id)

/-- `scheduleDeadlineNotif`: clear the existing timer for the task's id,
then arm a fresh one at deadline-day 10:00 unless the task has no deadline,
is terminal, or the target is already in the past. -/
def scheduleDeadlineNotif (t : Task) (now : Int) (timers : List Timer) : List Timer :=
  let timers := clearNotif t.id timers
  match t.deadline with
  | none => timers
  | some d =>
    if t.status == "finish" || t.status == "dnf" then timers
    else
      let target := d + notifHourMs
      if target ≤ now then timers
      else { id := t.id, target := target, title := t.title } :: timers

/-- `SELECT * FROM tasks WHERE id = ?`. -/
def findTask (id : Nat) (s : Sys) : Option Task :=
  s.tasks.find? (fun t => t.id == id)

/-- The tail of the update handler: re-read the updated row and rearm its
notification from it (`const updated = ...; scheduleDeadlineNotif(updated)`). -/
def rearmFrom (tasks : List Task) (id : Nat) (now : Int) (tms : List Timer) : List Timer :=
  match tasks.find? (fun t => t.id == id) with
  | some updated => scheduleDeadlineNotif updated now tms
  | none => tms

/-- `basePoints` of `src/main/index.ts`: the hard-coded base value per
scoring category. -/
def basePoints (sessionType : String) : Int :=
  if sessionType == "race" then 25
  else if sessionType == "sprint" then 8
  else if sessionType == "qualifying" then 3
  else if sessionType == "pit" then 2
  else if sessionType == "practice" then 1
  else if sessionType == "parc" then 1
  else 0

/-- `isLateByDays`: `Math.floor(diffMs / (1000*60*60*24))` where `diffMs`
is finished-instant minus deadline-day start. -/
def isLateByDays (deadlineStart finished : Int) : Int :=
  Int.fdiv (finished - deadlineStart) dayMs

/-- `task.points_session_type || task.session_type`: the `||` fallback
fires on an empty string as well (the column is backfilled non-null). -/
def scoreTypeOf (t : Task) : String :=
  if t.points_session_type == "" then t.session_type else t.points_session_type

/-- The four points columns written by a terminal transition. -/
structure Award where
  base : Int
  bonus : Int
  penalty : Int
  total : Int
deriving DecidableEq

/-- The award computed inside the `tasks:finish` handler: hard-coded base
table, penalty −5 when at least 3 calendar days late, bonus 0. -/
def codeFinishAward (scoreType : String) (deadline : Option Int) (finishedAt : Int) : Award :=
  let base := basePoints scoreType
  let penalty : Int :=
    match deadline with
    | some d => if 3 ≤ isLateByDays d finishedAt then -5 else 0
    | none => 0
  { base := base, bonus := 0, penalty := penalty, total := base + penalty }

/-- The award written by the `tasks:dnf` handler: hard-coded penalty −5. -/
def codeDnfAward : Award :=
  { base := 0, bonus := 0, penalty := -5, total := -5 }

/-- The row inserted by `tasks:create` (defaults `sprint`/`start`, clamped
laps, zero points, `points_session_type` mirroring `session_type`). -/
def newTaskOf (p : CreatePayload) (now : Int) (id : Nat) : Task :=
  { id := id, title := jsTrim (p.title.getD ""),
    session_type := p.session_type.getD "sprint",
    status := p.status.getD "start",
    laps_total := clampInt (p.laps_total.getD (.fin 1)) 1 999,
    laps_done := clampInt (p.laps_done.getD (.fin 0)) 0
      (clampInt (p.laps_total.getD (.fin 1)) 1 999),
    created_at := now, deadline := p.deadline, finished_at := none,
    points_base := 0, points_bonus := 0, points_penalty := 0, points_total := 0,
    points_session_type := p.session_type.getD "sprint" }

/-- Handler `tasks:create`. -/
def tasksCreate (p : CreatePayload) (now : Int) (s : Sys) : Except AppError (Sys × Nat) :=
  if jsTrim (p.title.getD "") == "" then .error .titleRequired
  else
    .ok ({ tasks := newTaskOf p now s.nextId :: s.tasks, nextId := s.nextId + 1,
           timers := scheduleDeadlineNotif (newTaskOf p now s.nextId) now s.timers },
      s.nextId)

/-- The row rewrite performed by `tasks:update` on the matching id: a
field present in the payload replaces the stored one (title trimmed, laps
clamped), and `points_session_type` follows a bucket change only when the
resulting status (`doneNow` in the source) is non-terminal. -/
def updateRow (p : UpdatePayload) (current : Task) (t : Task) : Task :=
  if t.id == p.id then
    { t with
      title := optUpd p.title jsTrim current.title,
      session_type := p.session_type.getD current.session_type,
      status := p.status.getD current.status,
      laps_total := optUpd p.laps_total (fun v => clampInt v 1 999) current.laps_total,
      laps_done := optUpd p.laps_done
        (fun v => clampInt v 0
          (optUpd p.laps_total (fun v => clampInt v 1 999) current.laps_total))
        current.laps_done,
      deadline := optUpd p.deadline (fun v => v) current.deadline,
      points_session_type :=
        if !(p.status.getD current.status == "finish" ||
              p.status.getD current.status == "dnf") && p.session_type.isSome then
          p.session_type.getD current.session_type
        else current.points_session_type }
  else t

/-- Handler `tasks:update`: only fields present in the payload are applied;
`points_session_type` follows a bucket change only when the resulting
status is non-terminal; the notification is rearmed from the updated row. -/
def tasksUpdate (p : UpdatePayload) (now : Int) (s : Sys) : Except AppError Sys :=
  if p.id == 0 then .error .idRequired
  else
    match findTask p.id s with
    | none => .error .taskNotFound
    | some current =>
      .ok { tasks := s.tasks.map (updateRow p current), nextId := s.nextId,
            timers := rearmFrom (s.tasks.map (updateRow p current)) p.id now s.timers }

/-- The row rewrite of `tasks:finish` on the matching id: terminal status,
archive bucket, `finished_at` stamped, the award written. -/
def finishRow (id : Nat) (now : Int) (a : Award) (t : Task) : Task :=
  if t.id == id then
    { t with status := "finish", session_type := "parc", finished_at := some now,
             points_base := a.base, points_bonus := a.bonus,
             points_penalty := a.penalty, points_total := a.total }
  else t

/-- The row rewrite of `tasks:dnf` on the matching id. -/
def dnfRow (id : Nat) (now : Int) (t : Task) : Task :=
  if t.id == id then
    { t with status := "dnf", session_type := "parc", finished_at := some now,
             points_base := codeDnfAward.base, points_bonus := codeDnfAward.bonus,
             points_penalty := codeDnfAward.penalty, points_total := codeDnfAward.total }
  else t

/-- Handler `tasks:finish`: unconditionally recomputes the award, moves the
task to the `parc` bucket, stamps `finished_at`, and clears the timer. -/
def tasksFinish (id : Nat) (now : Int) (s : Sys) : Except AppError Sys :=
  match findTask id s with
  | none => .error .taskNotFound
  | some task =>
    .ok { tasks := s.tasks.map
            (finishRow id now (codeFinishAward (scoreTypeOf task) task.deadline now)),
          nextId := s.nextId, timers := clearNotif id s.timers }

/-- Handler `tasks:dnf`: unconditionally writes the dnf award, moves the
task to `parc`, stamps `finished_at`, and clears the timer. -/
def tasksDnf (id : Nat) (now : Int) (s : Sys) : Except AppError Sys :=
  match findTask id s with
  | none => .error .taskNotFound
  | some _ =>
    .ok { tasks := s.tasks.map (dnfRow id now), nextId := s.nextId,
          timers := clearNotif id s.timers }

/-- Handler `tasks:delete`: drop the row (idempotent) and clear the timer. -/
def tasksDelete (id : Nat) (s : Sys) : Sys :=
  { tasks := s.tasks.filter (fun t => t.id != id), nextId := s.nextId,
    timers := clearNotif id s.timers }

/-- Handler `tasks:rescheduleNotifications`: rearm every task's timer. -/
def tasksReschedule (now : Int) (s : Sys) : Sys :=
  { tasks := s.tasks, nextId := s.nextId,
    timers := s.tasks.foldl (fun tms t => scheduleDeadlineNotif t now tms) s.timers }

/-- A pending timer for `id` may fire at `now` once its target is due. -/
def fireEnabled (id : Nat) (now : Int) (s : Sys) : Bool :=
  s.timers.any (fun tm => tm.id == id && tm.target ≤ now)

/-- The timer callback: shows the notification and clears the map entry
(the source rechecks nothing else at fire time). -/
def fireStep (id : Nat) (now : Int) (s : Sys) : Sys :=
  if fireEnabled id now s then
    { tasks := s.tasks, nextId := s.nextId, timers := clearNotif id s.timers }
  else s

/-- The operations observable at the IPC boundary, plus timer callbacks. -/
inductive Op where
  | create (p : CreatePayload) (now : Int)
  | update (p : UpdatePayload) (now : Int)
  | finish (id : Nat) (now : Int)
  | dnf (id : Nat) (now : Int)
  | delete (id : Nat)
  | reschedule (now : Int)
  | fire (id : Nat) (now : Int)

/-- One step of the system; a handler that throws leaves the state
unchanged (every throw in the source happens before any write). -/
def step : Op → Sys → Sys
  | .create p now, s =>
    match tasksCreate p now s with
    | .ok (s', _) => s'
    | .error _ => s
  | .update p now, s =>
    match tasksUpdate p now s with
    | .ok s' => s'
    | .error _ => s
  | .finish id now, s =>
    match tasksFinish id now s with
    | .ok s' => s'
    | .error _ => s
  | .dnf id now, s =>
    match tasksDnf id now s with
    | .ok s' => s'
    | .error _ => s
  | .delete id, s => tasksDelete id s
  | .reschedule now, s => tasksReschedule now s
  | .fire id now, s => fireStep id now s

/-- Run a sequence of operations. -/
def runOps (ops : List Op) (s : Sys) : Sys :=
  ops.foldl (fun s op => step op s) s

/-- Whether a notification for task `id` actually fires somewhere in the
trace: a `fire id` event occurs while a due timer for `id` is pending. -/
def notifFiresB (id : Nat) : List Op → Sys → Bool
  | [], _ => false
  | op :: rest, s =>
    (match op with
     | .fire j now => j == id && fireEnabled id now s
     | _ => false) || notifFiresB id rest (step op s)

/-- Status of the task with the given id, if present. -/
def taskStatus (id : Nat) (s : Sys) : Option String :=
  (findTask id s).map Task.status

/-- Current bucket (`session_type` column) of the task, if present. -/
def taskSessionType (id : Nat) (s : Sys) : Option String :=
  (findTask id s).map Task.session_type

/-- Scoring category (`points_session_type` column) of the task. -/
def taskScoringCategory (id : Nat) (s : Sys) : Option String :=
  (findTask id s).map Task.points_session_type

/-- Title of the task, if present. -/
def taskTitle (id : Nat) (s : Sys) : Option String :=
  (findTask id s).map Task.title

/-- The four points columns of the task, if present. -/
def taskAward (id : Nat) (s : Sys) : Option Award :=
  (findTask id s).map (fun t =>
    { base := t.points_base, bonus := t.points_bonus,
      penalty := t.points_penalty, total := t.points_total })

/-- `finished_at` column of the task, if present. -/
def taskFinishedAt (id : Nat) (s : Sys) : Option (Option Int) :=
  (findTask id s).map Task.finished_at

/-- The pending timer for `id`, if any. -/
def timerFor (id : Nat) (s : Sys) : Option Timer :=
  s.timers.find? (fun tm => tm.id == id)

/-- The scoring configuration described by the spec (`PointsRules` in the
renderer source): per-bucket base values, a grace period in days, the
lateness penalty, and the dnf penalty.  Modelled from the spec: nothing in
the main process accepts or reads such a configuration. -/
structure PointsRules where
  base : String → Int
  latePenaltyAfterDays : Int
  latePenaltyPoints : Int
  dnfPenaltyPoints : Int

/-- The finish award the spec prescribes for an injected rules value:
`base = rules.base[scoringCategory]`; `latePenaltyPoints` applied when
`floor((finishedAt - deadlineStartOfDay) / 1 day) ≥ latePenaltyAfterDays`;
bonus 0; total the sum. -/
def specFinishAward (r : PointsRules) (scoringCategory : String)
    (deadline : Option Int) (finishedAt : Int) : Award :=
  let base := r.base scoringCategory
  let penalty : Int :=
    match deadline with
    | some d =>
      if r.latePenaltyAfterDays ≤ Int.fdiv (finishedAt - d) dayMs then r.latePenaltyPoints
      else 0
    | none => 0
  { base := base, bonus := 0, penalty := penalty, total := base + 0 + penalty }

/-- The dnf award the spec prescribes for an injected rules value. -/
def specDnfAward (r : PointsRules) : Award :=
  { base := 0, bonus := 0, penalty := r.dnfPenaltyPoints, total := r.dnfPenaltyPoints }

/-- The one rules value the handlers actually implement: the hard-coded
`basePoints` table, grace period 3 days, late penalty −5, dnf penalty −5. -/
def defaultRules : PointsRules :=
  { base := basePoints, latePenaltyAfterDays := 3, latePenaltyPoints := -5,
    dnfPenaltyPoints := -5 }

/-- A rules value with the dnf penalty −3 — the example value suggested for
`dnfPenaltyPoints` in the renderer's own `PointsRules` type — used to test
whether the engine reads an injected configuration. -/
def exampleRules : PointsRules :=
  { base := basePoints, latePenaltyAfterDays := 3, latePenaltyPoints := -5,
    dnfPenaltyPoints := -3 }

/-- One race object of the upstream Ergast-style feed, after JSON parsing
(`data.MRData.RaceTable.Races[i]`). -/
structure RaceData where
  round : Int
  raceName : String
  circuitName : String
  locality : String
  country : String
  date : String
  time : Option String
deriving DecidableEq

/-- The summary returned by `f1:next`. -/
structure NextGp where
  name : String
  location : String
  dateTimeISO : String
deriving DecidableEq

/-- One normalized fixture returned by `f1:schedule` (`F1Race`). -/
structure F1Race where
  round : Int
  raceName : String
  circuitName : String
  locality : String
  country : String
  date : String
  dateTimeISO : String
deriving DecidableEq

/-- Upstream errors surfaced by the schedule handlers. -/
inductive F1Error where
  | nextFailed
  | httpStatus
deriving DecidableEq

/-- JavaScript `a || b` on strings: the fallback fires on the empty string. -/
def strOr (a b : String) : String := if a == "" then b else a

/-- `race.time || "00:00:00Z"` where a missing field reads as undefined. -/
def timeOr (t : Option String) (d : String) : String :=
  match t with
  | none => d
  | some v => strOr v d

/-- The normalization performed inside `f1:next` on the first race. -/
def normalizeNext (r : RaceData) : NextGp :=
  let location := String.intercalate ", " ([r.locality, r.country].filter (fun x => x != ""))
  { name := strOr r.raceName "Grand Prix", location := location,
    dateTimeISO := r.date ++ "T" ++ timeOr r.time "00:00:00Z" }

/-- The normalization performed by `f1:schedule` on each race. -/
def normalizeRace (r : RaceData) : F1Race :=
  { round := r.round, raceName := strOr r.raceName "Grand Prix",
    circuitName := r.circuitName, locality := r.locality, country := r.country,
    date := r.date, dateTimeISO := r.date ++ "T" ++ timeOr r.time "00:00:00Z" }

/-- The outcome of querying one upstream endpoint: `none` models a network
failure, HTTP error, timeout, or a malformed body with no race table;
`some races` models a well-formed body whose `Races` array parsed. -/
abbrev EndpointResult := Option (List RaceData)

/-- Handler `f1:next`: try the configured endpoints in order; a thrown
fetch, a missing race table, or an empty `Races` array (`Races?.[0]`
undefined) moves to the next endpoint; the first response with a first
race wins; when every endpoint fails the handler throws. -/
def f1Next : List EndpointResult → Except F1Error NextGp
  | [] => .error .nextFailed
  | none :: rest => f1Next rest
  | some [] :: rest => f1Next rest
  | some (r :: _) :: _ => .ok (normalizeNext r)

/-- Handler `f1:schedule`: a single fetch of one endpoint; an HTTP or
network error throws, and any well-formed body — including one with zero
races — is normalized and returned as a success. -/
def f1Schedule (result : EndpointResult) : Except F1Error (List F1Race) :=
  match result with
  | none => .error .httpStatus
  | some races => .ok (races.map normalizeRace)

/-- A renderer-side cache record `{ ts, data }` stored in localStorage. -/
structure CacheEntry where
  ts : Int
  data : List F1Race
deriving DecidableEq

/-- The renderer's schedule-cache read (initializer of `f1Races`): a
missing entry or one older than 24 hours reads as `[]`. -/
def loadSchedCache (cache : Option CacheEntry) (now : Int) : List F1Race :=
  match cache with
  | none => []
  | some c => if freshnessWindowMs < now - c.ts then [] else c.data

/-- One visit to the calendar page: the cache read seeds `f1Races`, and
`loadF1Schedule` runs — performing one network fetch — exactly when the
seeded list is empty; a successful fetch replaces both the displayed list
and the cache entry, a failed fetch leaves both alone.  Returns the
displayed list, the resulting cache entry, and the number of fetches. -/
def calendarVisit (cache : Option CacheEntry) (now : Int) (upstream : EndpointResult) :
    List F1Race × Option CacheEntry × Nat :=
  let seeded := loadSchedCache cache now
  if seeded.isEmpty then
    match f1Schedule upstream with
    | .ok races => (races, some { ts := now, data := races }, 1)
    | .error _ => (seeded, cache, 1)
  else (seeded, cache, 0)

/-- Structural invariant of the main-process state: task ids are distinct
and below the autoincrement counter; every row satisfies the points-sum
equation; a row never touched by a terminal transition (`finished_at`
null) has all-zero points; laps columns stay in their clamped ranges
(except `laps_done ≤ laps_total`, which the handlers do not maintain);
timer ids are distinct and belong to existing rows. -/
def Inv (s : Sys) : Prop :=
  (s.tasks.map Task.id).Nodup ∧
  (∀ t ∈ s.tasks, t.id < s.nextId) ∧
  (∀ t ∈ s.tasks, t.points_total = t.points_base + t.points_bonus + t.points_penalty) ∧
  (∀ t ∈ s.tasks, t.finished_at = none →
    t.points_base = 0 ∧ t.points_bonus = 0 ∧ t.points_penalty = 0 ∧ t.points_total = 0) ∧
  (∀ t ∈ s.tasks, 1 ≤ t.laps_total ∧ t.laps_total ≤ 999 ∧ 0 ≤ t.laps_done) ∧
  (s.timers.map Timer.id).Nodup ∧
  (∀ tm ∈ s.timers, ∃ t ∈ s.tasks, t.id = tm.id)

instance (s : Sys) : Decidable (Inv s) := by
  unfold Inv
  exact inferInstance

/-- Does this operation explicitly write a status for task `id`? -/
def setsStatusFor (id : Nat) : Op → Bool
  | .update p _ => p.id == id && p.status.isSome
  | .finish j _ => j == id
  | .dnf j _ => j == id
  | _ => false

/-- Does this operation apply a terminal transition (`tasks:finish` or
`tasks:dnf`) to task `id`? -/
def touchesTerminal (id : Nat) : Op → Bool
  | .finish j _ => j == id
  | .dnf j _ => j == id
  | _ => false

/-- Does this operation set a non-terminal status on task `id` (the only
kind of write after which the update handler re-arms a terminal task's
notification)? -/
def rearmsFor (id : Nat) : Op → Bool
  | .update p _ =>
    p.id == id &&
      (match p.status with
       | some st => !(st == "finish" || st == "dnf")
       | none => false)
  | _ => false

/-- The payload `incLap` in the renderer sends for a task: the clamped
incremented lap count together with an unconditional status `progress`. -/
def incLapPayload (t : Task) : UpdatePayload :=
  { id := t.id,
    laps_done := some (.fin ((clampInt (.fin ((t.laps_done + 1 : Int) : ℚ)) 0 t.laps_total : Int) : ℚ)),
    status := some "progress" }

/-- Example trace: create a task titled `t` (default bucket `sprint`, no
deadline) at time 0, then finish it at time 10. -/
def exCreateOp : Op := .create { title := some "t" } 0

/-- The finish step of the example trace. -/
def exFinishOp : Op := .finish 1 10

/-- The state after creating and finishing the example task. -/
def exTerminalState : Sys := runOps [exCreateOp, exFinishOp] initSys

/-- The example task as it sits in the store after its terminal
transition: archived bucket, status `finish`, 8 sprint points. -/
def exFinishedTask : Task :=
  { id := 1, title := "t", session_type := "parc", status := "finish",
    laps_total := 1, laps_done := 0, created_at := 0, deadline := none,
    finished_at := some 10, points_base := 8, points_bonus := 0,
    points_penalty := 0, points_total := 8, points_session_type := "sprint" }

/-- Total laps of the task, if present. -/
def taskLapsTotal (id : Nat) (s : Sys) : Option Int :=
  (findTask id s).map Task.laps_total

/-- Completed laps of the task, if present. -/
def taskLapsDone (id : Nat) (s : Sys) : Option Int :=
  (findTask id s).map Task.laps_done

/-- The state holding the freshly created example task, before any
terminal transition. -/
def exStartState : Sys := runOps [exCreateOp] initSys

/-- The example task as created: default bucket `sprint`, status `start`,
no deadline, all points zero. -/
def exStartTask : Task :=
  { id := 1, title := "t", session_type := "sprint", status := "start",
    laps_total := 1, laps_done := 0, created_at := 0, deadline := none,
    finished_at := none, points_base := 0, points_bonus := 0,
    points_penalty := 0, points_total := 0, points_session_type := "sprint" }

/-- The update the renderer's `incLap` issues for the example task once it
is finished: lap count bumped and status forced to `progress`. -/
def exIncLapOp : Op := .update (incLapPayload exFinishedTask) 20

/-- A payload updating only the lap count, with no status field. -/
def exNoStatusPayload : UpdatePayload := { id := 1, laps_done := some (.fin 1) }

/-- An update on the example task that carries no status field. -/
def exNoStatusOp : Op := .update exNoStatusPayload 20

/-- The example task after `exNoStatusOp`: one lap done, rest unchanged. -/
def exNoStatusUpdatedTask : Task :=
  { id := 1, title := "t", session_type := "sprint", status := "start",
    laps_total := 1, laps_done := 1, created_at := 0, deadline := none,
    finished_at := none, points_base := 0, points_bonus := 0,
    points_penalty := 0, points_total := 0, points_session_type := "sprint" }

/-- A payload that simultaneously moves a task to the `race` bucket and
sets the terminal status `finish`. -/
def exBucketAndFinishPayload : UpdatePayload :=
  { id := 1, status := some "finish", session_type := some "race" }

/-- An update that simultaneously moves the example task to the `race`
bucket and sets the terminal status `finish`. -/
def exBucketAndFinishOp : Op := .update exBucketAndFinishPayload 5

/-- A payload carrying a whitespace-only title. -/
def exEmptyTitlePayload : UpdatePayload := { id := 1, title := some " " }

/-- An update that writes a whitespace-only title for the example task. -/
def exEmptyTitleOp : Op := .update exEmptyTitlePayload 5

/-- Create a task with a deadline at day-start 0, so its notification
target is 10:00 of that day (36000000 in milliseconds). -/
def exDeadlineCreateOp : Op := .create { title := some "d", deadline := some 0 } 0

/-- The deadline example after creation (timer armed) and finish at time 5
(timer cleared). -/
def exDeadlineFinished : Sys := runOps [exDeadlineCreateOp, .finish 1 5] initSys

/-- The renderer `incLap` payload against the finished deadline task:
status `progress`, bumped laps. -/
def exReviveOp : Op :=
  .update { id := 1, laps_done := some (.fin 1), status := some "progress" } 10

/-- The timer callback for the example task at its 10:00 target. -/
def exFireOp : Op := .fire 1 36000000

/-- Trace for the points-invariant witness: a create followed by a
status/lap update, no terminal transition. -/
def exPointsOps : List Op :=
  [.create { title := some "w" } 0,
   .update { id := 1, laps_done := some (.fin 1), status := some "progress" } 5]

/-- The task produced by `exPointsOps`. -/
def exPointsTask : Task :=
  { id := 1, title := "w", session_type := "sprint", status := "progress",
    laps_total := 1, laps_done := 1, created_at := 0, deadline := none,
    finished_at := none, points_base := 0, points_bonus := 0,
    points_penalty := 0, points_total := 0, points_session_type := "sprint" }

/-- The create payload of the shrink example: 8 of 10 laps done. -/
def exShrinkCreatePayload : CreatePayload :=
  { title := some "s", laps_total := some (.fin 10), laps_done := some (.fin 8) }

/-- Trace producing `laps_done > laps_total`: create with 8 of 10 laps
done, then shrink `laps_total` to 5 without resending `laps_done`. -/
def exShrinkOps : List Op :=
  [.create exShrinkCreatePayload 0,
   .update { id := 1, laps_total := some (.fin 5) } 5]

/-- A sample upstream race record. -/
def sampleRace : RaceData :=
  { round := 1, raceName := "Bahrain Grand Prix",
    circuitName := "Bahrain International Circuit", locality := "Sakhir",
    country := "Bahrain", date := "2024-03-02", time := some "15:00:00Z" }

/-- Lower bound of `clampInt`. -/
theorem clampInt_lower (v : JSNumber) (lo hi : Int) (h : lo ≤ hi) :
    lo ≤ clampInt v lo hi := by
  cases v with
  | nan => simp [clampInt]
  | fin q => exact le_max_left _ _

/-- Upper bound of `clampInt`. -/
theorem clampInt_upper (v : JSNumber) (lo hi : Int) (h : lo ≤ hi) :
    clampInt v lo hi ≤ hi := by
  cases v with
  | nan => simpa [clampInt] using h
  | fin q => exact max_le h (min_le_left _ _)

/-- `find?` commutes with a map that preserves the searched id. -/
theorem find?_map_idpres (f : Task → Task) (hf : ∀ t, (f t).id = t.id)
    (l : List Task) (id : Nat) :
    (l.map f).find? (fun t => t.id == id) = (l.find? (fun t => t.id == id)).map f := by
  induction l with
  | nil => rfl
  | cons a l ih =>
    by_cases h : (a.id == id) = true
    · simp [List.find?_cons, hf a, h]
    · simp only [Bool.not_eq_true] at h
      simp [List.find?_cons, hf a, h, ih]

/-- Filtering away only elements the search predicate rejects leaves
`find?` unchanged. -/
theorem find?_filter_keep {α : Type} (p q : α → Bool) (l : List α)
    (h : ∀ x, p x = true → q x = true) :
    (l.filter q).find? p = l.find? p := by
  induction l with
  | nil => rfl
  | cons a l ih =>
    by_cases hp : p a
    · rw [List.filter_cons_of_pos (h a hp), List.find?_cons_of_pos _ hp,
        List.find?_cons_of_pos _ hp]
    · by_cases hq : q a
      · rw [List.filter_cons_of_pos hq, List.find?_cons_of_neg _ (by simpa using hp),
          List.find?_cons_of_neg _ (by simpa using hp), ih]
      · rw [List.filter_cons_of_neg (by simpa using hq),
          List.find?_cons_of_neg _ (by simpa using hp), ih]

/-- Membership in `clearNotif`. -/
theorem mem_clearNotif {tm : Timer} {id : Nat} {tms : List Timer} :
    tm ∈ clearNotif id tms ↔ tm ∈ tms ∧ tm.id ≠ id := by
  simp [clearNotif, List.mem_filter]

/-- No timer for `id` survives `clearNotif id`. -/
theorem timFind_clearNotif_self (id : Nat) (tms : List Timer) :
    (clearNotif id tms).find? (fun tm => tm.id == id) = none := by
  rw [List.find?_eq_none]
  intro tm hm
  simp only [mem_clearNotif] at hm
  simpa using hm.2

/-- Clearing another id leaves the search for `id` unchanged. -/
theorem timFind_clearNotif_other {id j : Nat} (h : id ≠ j) (tms : List Timer) :
    (clearNotif j tms).find? (fun tm => tm.id == id) =
      tms.find? (fun tm => tm.id == id) := by
  apply find?_filter_keep
  intro tm htm
  have : tm.id = id := by simpa using htm
  simp [this, h]

/-- If no timer for `id` is pending, none is pending after clearing any
id. -/
theorem timFind_clearNotif_none {id j : Nat} {tms : List Timer}
    (h : tms.find? (fun tm => tm.id == id) = none) :
    (clearNotif j tms).find? (fun tm => tm.id == id) = none := by
  rw [List.find?_eq_none] at h ⊢
  intro tm hm
  exact h tm (mem_clearNotif.mp hm).1

/-- `scheduleDeadlineNotif` either only clears, or clears and arms one
fresh timer carrying the task's id. -/
theorem schedule_cases (t : Task) (now : Int) (tms : List Timer) :
    scheduleDeadlineNotif t now tms = clearNotif t.id tms ∨
      ∃ d, scheduleDeadlineNotif t now tms =
        { id := t.id, target := d + notifHourMs, title := t.title } :: clearNotif t.id tms := by
  simp only [scheduleDeadlineNotif]
  cases ht : t.deadline with
  | none => exact Or.inl rfl
  | some d =>
    dsimp only
    by_cases hst : (t.status == "finish" || t.status == "dnf") = true
    · rw [if_pos hst]
      exact Or.inl rfl
    · rw [if_neg hst]
      by_cases htar : d + notifHourMs ≤ now
      · rw [if_pos htar]
        exact Or.inl rfl
      · rw [if_neg htar]
        exact Or.inr ⟨d, rfl⟩

/-- Scheduling a terminal task only clears: no timer is armed. -/
theorem schedule_terminal {t : Task}
    (hst : t.status = "finish" ∨ t.status = "dnf") (now : Int) (tms : List Timer) :
    scheduleDeadlineNotif t now tms = clearNotif t.id tms := by
  have hb : (t.status == "finish" || t.status == "dnf") = true := by
    rcases hst with h | h <;> simp [h]
  simp only [scheduleDeadlineNotif]
  cases ht : t.deadline with
  | none => rfl
  | some d =>
    dsimp only
    rw [if_pos hb]

/-- Scheduling a task with a different id leaves the search for `id`
unchanged. -/
theorem timFind_schedule_other {id : Nat} {t : Task} (h : id ≠ t.id)
    (now : Int) (tms : List Timer) :
    (scheduleDeadlineNotif t now tms).find? (fun tm => tm.id == id) =
      tms.find? (fun tm => tm.id == id) := by
  rcases schedule_cases t now tms with hc | ⟨d, hc⟩
  · rw [hc]
    exact timFind_clearNotif_other h tms
  · rw [hc, List.find?_cons_of_neg]
    · exact timFind_clearNotif_other h tms
    · simp
      exact fun hh => h hh.symm

/-- Scheduling a terminal task arms nothing: afterwards no timer for its
id is pending. -/
theorem timFind_schedule_terminal {t : Task}
    (hst : t.status = "finish" ∨ t.status = "dnf") (now : Int) (tms : List Timer) :
    (scheduleDeadlineNotif t now tms).find? (fun tm => tm.id == t.id) = none := by
  rw [schedule_terminal hst]
  exact timFind_clearNotif_self t.id tms

/-- Where a timer in a scheduled list comes from. -/
theorem mem_schedule {tm : Timer} {t : Task} {now : Int} {tms : List Timer}
    (h : tm ∈ scheduleDeadlineNotif t now tms) : tm ∈ tms ∨ tm.id = t.id := by
  rcases schedule_cases t now tms with hc | ⟨d, hc⟩
  · rw [hc] at h
    exact Or.inl (mem_clearNotif.mp h).1
  · rw [hc] at h
    rcases List.mem_cons.mp h with h | h
    · exact Or.inr (by rw [h])
    · exact Or.inl (mem_clearNotif.mp h).1

/-- Timer ids stay duplicate-free under `clearNotif`. -/
theorem nodup_clearNotif {id : Nat} {tms : List Timer}
    (h : (tms.map Timer.id).Nodup) : ((clearNotif id tms).map Timer.id).Nodup :=
  h.sublist ((List.filter_sublist tms).map Timer.id)

/-- Timer ids stay duplicate-free under `scheduleDeadlineNotif`. -/
theorem nodup_schedule {t : Task} {now : Int} {tms : List Timer}
    (h : (tms.map Timer.id).Nodup) :
    ((scheduleDeadlineNotif t now tms).map Timer.id).Nodup := by
  rcases schedule_cases t now tms with hc | ⟨d, hc⟩
  · rw [hc]
    exact nodup_clearNotif h
  · rw [hc, List.map_cons, List.nodup_cons]
    refine ⟨?_, nodup_clearNotif h⟩
    intro hmem
    rcases List.mem_map.mp hmem with ⟨tm, hm, hid⟩
    exact (mem_clearNotif.mp hm).2 hid

/-- Timer ids stay duplicate-free when every task is rescheduled. -/
theorem nodup_foldl_schedule (now : Int) :
    ∀ (tasks : List Task) (tms : List Timer), (tms.map Timer.id).Nodup →
      (((tasks.foldl (fun a t => scheduleDeadlineNotif t now a) tms)).map Timer.id).Nodup := by
  intro tasks
  induction tasks with
  | nil => intro tms h; exact h
  | cons a l ih =>
    intro tms h
    exact ih _ (nodup_schedule h)

/-- Where a timer after a bulk reschedule comes from. -/
theorem mem_foldl_schedule (now : Int) :
    ∀ (tasks : List Task) (tms : List Timer) (tm : Timer),
      tm ∈ tasks.foldl (fun a t => scheduleDeadlineNotif t now a) tms →
      tm ∈ tms ∨ ∃ t ∈ tasks, tm.id = t.id := by
  intro tasks
  induction tasks with
  | nil => intro tms tm h; exact Or.inl h
  | cons a l ih =>
    intro tms tm h
    rcases ih _ tm h with h' | ⟨t, ht, hid⟩
    · rcases mem_schedule h' with h'' | h''
      · exact Or.inl h''
      · exact Or.inr ⟨a, List.mem_cons_self a l, h''⟩
    · exact Or.inr ⟨t, List.mem_cons_of_mem a ht, hid⟩

/-- A bulk reschedule never arms a timer for an id that belongs to no task
and had no pending timer. -/
theorem timFind_foldl_schedule_none {id : Nat} (now : Int) :
    ∀ (tasks : List Task) (tms : List Timer),
      (∀ t ∈ tasks, t.id = id → (t.status = "finish" ∨ t.status = "dnf")) →
      tms.find? (fun tm => tm.id == id) = none →
      (tasks.foldl (fun a t => scheduleDeadlineNotif t now a) tms).find?
        (fun tm => tm.id == id) = none := by
  intro tasks
  induction tasks with
  | nil => intro tms _ h; exact h
  | cons a l ih =>
    intro tms hterm h
    refine ih _ (fun t ht => hterm t (List.mem_cons_of_mem a ht)) ?_
    by_cases hid : id = a.id
    · subst hid
      exact timFind_schedule_terminal (hterm a (List.mem_cons_self a l) rfl) now tms
    · rw [timFind_schedule_other hid now tms]
      exact h

/-- Mapping an id-preserving row transformation keeps task ids
duplicate-free. -/
theorem nodup_map_ids (f : Task → Task) (hf : ∀ t, (f t).id = t.id) (l : List Task)
    (h : (l.map Task.id).Nodup) : ((l.map f).map Task.id).Nodup := by
  rw [List.map_map, show Task.id ∘ f = Task.id from funext hf]
  exact h

/-- Sum of the points columns written by `tasks:finish`. -/
theorem codeFinishAward_sum (st : String) (d : Option Int) (f : Int) :
    (codeFinishAward st d f).total =
      (codeFinishAward st d f).base + (codeFinishAward st d f).bonus +
        (codeFinishAward st d f).penalty := by
  cases d <;> simp [codeFinishAward]

/-- Transfer a property through `List.map`. -/
theorem forall_mem_map {f : Task → Task} {P : Task → Prop} {l : List Task}
    (h : ∀ t ∈ l, P (f t)) : ∀ t ∈ l.map f, P t := by
  intro t ht
  rcases List.mem_map.mp ht with ⟨a, ha, rfl⟩
  exact h a ha

/-- Timer ids stay duplicate-free under `rearmFrom`. -/
theorem nodup_rearmFrom {tasks : List Task} {id : Nat} {now : Int} {tms : List Timer}
    (h : (tms.map Timer.id).Nodup) :
    ((rearmFrom tasks id now tms).map Timer.id).Nodup := by
  unfold rearmFrom
  split
  · exact nodup_schedule h
  · exact h

/-- Every timer after `rearmFrom` either was pending or carries the id of
a task in the consulted list. -/
theorem mem_rearmFrom {tasks : List Task} {id : Nat} {now : Int} {tms : List Timer}
    {tm : Timer} (h : tm ∈ rearmFrom tasks id now tms) :
    tm ∈ tms ∨ ∃ t ∈ tasks, t.id = tm.id := by
  unfold rearmFrom at h
  split at h
  next updated hupd =>
    rcases mem_schedule h with h' | h'
    · exact Or.inl h'
    · exact Or.inr ⟨updated, List.mem_of_find?_eq_some hupd, h'.symm⟩
  next => exact Or.inl h

/-- Shape of a successful `tasks:create`. -/
theorem tasksCreate_ok {p : CreatePayload} {now : Int} {s s' : Sys} {newId : Nat}
    (h : tasksCreate p now s = .ok (s', newId)) :
    s' = { tasks := newTaskOf p now s.nextId :: s.tasks, nextId := s.nextId + 1,
           timers := scheduleDeadlineNotif (newTaskOf p now s.nextId) now s.timers } ∧
      newId = s.nextId := by
  unfold tasksCreate at h
  split at h
  · cases h
  · simp only [Except.ok.injEq, Prod.mk.injEq] at h
    exact ⟨h.1.symm, h.2.symm⟩

/-- Shape of a successful `tasks:update`. -/
theorem tasksUpdate_ok {p : UpdatePayload} {now : Int} {s s' : Sys}
    (h : tasksUpdate p now s = .ok s') :
    ∃ current, findTask p.id s = some current ∧
      s' = { tasks := s.tasks.map (updateRow p current), nextId := s.nextId,
             timers := rearmFrom (s.tasks.map (updateRow p current)) p.id now s.timers } := by
  unfold tasksUpdate at h
  split at h
  · cases h
  · cases hcur : findTask p.id s with
    | none =>
      rw [hcur] at h
      cases h
    | some current =>
      rw [hcur] at h
      injection h with h'
      exact ⟨current, rfl, h'.symm⟩

/-- Shape of a successful `tasks:finish`. -/
theorem tasksFinish_ok {id : Nat} {now : Int} {s s' : Sys}
    (h : tasksFinish id now s = .ok s') :
    ∃ task, findTask id s = some task ∧
      s' = { tasks := s.tasks.map
               (finishRow id now (codeFinishAward (scoreTypeOf task) task.deadline now)),
             nextId := s.nextId, timers := clearNotif id s.timers } := by
  unfold tasksFinish at h
  cases hcur : findTask id s with
  | none =>
    rw [hcur] at h
    cases h
  | some task =>
    rw [hcur] at h
    injection h with h'
    exact ⟨task, rfl, h'.symm⟩

/-- Shape of a successful `tasks:dnf`. -/
theorem tasksDnf_ok {id : Nat} {now : Int} {s s' : Sys}
    (h : tasksDnf id now s = .ok s') :
    ∃ task, findTask id s = some task ∧
      s' = { tasks := s.tasks.map (dnfRow id now), nextId := s.nextId,
             timers := clearNotif id s.timers } := by
  unfold tasksDnf at h
  cases hcur : findTask id s with
  | none =>
    rw [hcur] at h
    cases h
  | some task =>
    rw [hcur] at h
    injection h with h'
    exact ⟨task, rfl, h'.symm⟩

/-- `updateRow` preserves the row id. -/
theorem updateRow_id (p : UpdatePayload) (current t : Task) :
    (updateRow p current t).id = t.id := by
  unfold updateRow
  split <;> rfl

/-- `finishRow` preserves the row id. -/
theorem finishRow_id (id : Nat) (now : Int) (a : Award) (t : Task) :
    (finishRow id now a t).id = t.id := by
  unfold finishRow
  split <;> rfl

/-- `dnfRow` preserves the row id. -/
theorem dnfRow_id (id : Nat) (now : Int) (t : Task) :
    (dnfRow id now t).id = t.id := by
  unfold dnfRow
  split <;> rfl

/-- Invariant preservation by `tasks:create`. -/
theorem inv_create {p : CreatePayload} {now : Int} {s s' : Sys} {newId : Nat}
    (hinv : Inv s) (h : tasksCreate p now s = .ok (s', newId)) : Inv s' := by
  obtain ⟨hs', -⟩ := tasksCreate_ok h
  subst hs'
  obtain ⟨h1, h2, h3, h4, h5, h6, h7⟩ := hinv
  have hlt1 : (1 : Int) ≤ clampInt (p.laps_total.getD (.fin 1)) 1 999 :=
    clampInt_lower _ _ _ (by norm_num)
  refine ⟨?_, ?_, ?_, ?_, ?_, ?_, ?_⟩
  · rw [List.map_cons, List.nodup_cons]
    refine ⟨?_, h1⟩
    intro hmem
    rcases List.mem_map.mp hmem with ⟨t, htmem, hid'⟩
    have hcontra : t.id = s.nextId := hid'
    exact absurd hcontra (Nat.ne_of_lt (h2 t htmem))
  · intro t htm
    rcases List.mem_cons.mp htm with rfl | htm
    · exact Nat.lt_succ_self _
    · exact Nat.lt_succ_of_lt (h2 t htm)
  · intro t htm
    rcases List.mem_cons.mp htm with rfl | htm
    · simp [newTaskOf]
    · exact h3 t htm
  · intro t htm
    rcases List.mem_cons.mp htm with rfl | htm
    · intro _
      simp [newTaskOf]
    · exact h4 t htm
  · intro t htm
    rcases List.mem_cons.mp htm with rfl | htm
    · refine ⟨hlt1, clampInt_upper _ _ _ (by norm_num), ?_⟩
      exact clampInt_lower _ _ _ (le_trans (by norm_num) hlt1)
    · exact h5 t htm
  · exact nodup_schedule h6
  · intro tm htm
    rcases mem_schedule htm with htm' | htm'
    · rcases h7 tm htm' with ⟨t, htmem, hid'⟩
      exact ⟨t, List.mem_cons_of_mem _ htmem, hid'⟩
    · exact ⟨_, List.mem_cons_self _ _, htm'.symm⟩

/-- Invariant preservation by `tasks:update`. -/
theorem inv_update {p : UpdatePayload} {now : Int} {s s' : Sys}
    (hinv : Inv s) (h : tasksUpdate p now s = .ok s') : Inv s' := by
  obtain ⟨current, hcur, hs'⟩ := tasksUpdate_ok h
  subst hs'
  obtain ⟨h1, h2, h3, h4, h5, h6, h7⟩ := hinv
  have hcurmem : current ∈ s.tasks := List.mem_of_find?_eq_some hcur
  have hlt1 : (1 : Int) ≤ optUpd p.laps_total (fun v => clampInt v 1 999)
      current.laps_total := by
    cases p.laps_total with
    | none => exact (h5 current hcurmem).1
    | some v => exact clampInt_lower _ _ _ (by norm_num)
  refine ⟨nodup_map_ids _ (updateRow_id p current) _ h1, ?_, ?_, ?_, ?_,
    nodup_rearmFrom h6, ?_⟩
  · refine forall_mem_map ?_
    intro t ht
    rw [updateRow_id]
    exact h2 t ht
  · refine forall_mem_map ?_
    intro t ht
    unfold updateRow
    split
    · exact h3 t ht
    · exact h3 t ht
  · refine forall_mem_map ?_
    intro t ht
    unfold updateRow
    split
    · exact h4 t ht
    · exact h4 t ht
  · refine forall_mem_map ?_
    intro t ht
    unfold updateRow
    split
    · have hlt999 : optUpd p.laps_total (fun v => clampInt v 1 999)
          current.laps_total ≤ 999 := by
        cases p.laps_total with
        | none => exact (h5 current hcurmem).2.1
        | some v => exact clampInt_upper _ _ _ (by norm_num)
      have hld : (0 : Int) ≤ optUpd p.laps_done
          (fun v => clampInt v 0 (optUpd p.laps_total (fun v => clampInt v 1 999)
            current.laps_total)) current.laps_done := by
        cases p.laps_done with
        | none => exact (h5 current hcurmem).2.2
        | some v => exact clampInt_lower _ _ _ (le_trans (by norm_num) hlt1)
      exact ⟨hlt1, hlt999, hld⟩
    · exact h5 t ht
  · intro tm htm
    rcases mem_rearmFrom htm with htm' | htm'
    · rcases h7 tm htm' with ⟨t, ht, hid'⟩
      refine ⟨_, List.mem_map_of_mem _ ht, ?_⟩
      rw [updateRow_id]
      exact hid'
    · exact htm'

/-- Invariant preservation by `tasks:finish`. -/
theorem inv_finish {id : Nat} {now : Int} {s s' : Sys}
    (hinv : Inv s) (h : tasksFinish id now s = .ok s') : Inv s' := by
  obtain ⟨task, hcur, hs'⟩ := tasksFinish_ok h
  subst hs'
  obtain ⟨h1, h2, h3, h4, h5, h6, h7⟩ := hinv
  refine ⟨nodup_map_ids _ (finishRow_id id now _) _ h1, ?_, ?_, ?_, ?_,
    nodup_clearNotif h6, ?_⟩
  · refine forall_mem_map ?_
    intro t ht
    rw [finishRow_id]
    exact h2 t ht
  · refine forall_mem_map ?_
    intro t ht
    unfold finishRow
    split
    · exact codeFinishAward_sum (scoreTypeOf task) task.deadline now
    · exact h3 t ht
  · refine forall_mem_map ?_
    intro t ht
    unfold finishRow
    split
    · exact fun hc => Option.noConfusion hc
    · exact h4 t ht
  · refine forall_mem_map ?_
    intro t ht
    unfold finishRow
    split
    · exact h5 t ht
    · exact h5 t ht
  · intro tm htm
    rcases h7 tm (mem_clearNotif.mp htm).1 with ⟨t, ht, hid'⟩
    refine ⟨_, List.mem_map_of_mem _ ht, ?_⟩
    rw [finishRow_id]
    exact hid'

/-- Invariant preservation by `tasks:dnf`. -/
theorem inv_dnf {id : Nat} {now : Int} {s s' : Sys}
    (hinv : Inv s) (h : tasksDnf id now s = .ok s') : Inv s' := by
  obtain ⟨task, hcur, hs'⟩ := tasksDnf_ok h
  subst hs'
  obtain ⟨h1, h2, h3, h4, h5, h6, h7⟩ := hinv
  refine ⟨nodup_map_ids _ (dnfRow_id id now) _ h1, ?_, ?_, ?_, ?_,
    nodup_clearNotif h6, ?_⟩
  · refine forall_mem_map ?_
    intro t ht
    rw [dnfRow_id]
    exact h2 t ht
  · refine forall_mem_map ?_
    intro t ht
    unfold dnfRow
    split
    · show codeDnfAward.total =
        codeDnfAward.base + codeDnfAward.bonus + codeDnfAward.penalty
      decide
    · exact h3 t ht
  · refine forall_mem_map ?_
    intro t ht
    unfold dnfRow
    split
    · exact fun hc => Option.noConfusion hc
    · exact h4 t ht
  · refine forall_mem_map ?_
    intro t ht
    unfold dnfRow
    split
    · exact h5 t ht
    · exact h5 t ht
  · intro tm htm
    rcases h7 tm (mem_clearNotif.mp htm).1 with ⟨t, ht, hid'⟩
    refine ⟨_, List.mem_map_of_mem _ ht, ?_⟩
    rw [dnfRow_id]
    exact hid'


/-- Invariant preservation by `tasks:delete`. -/
theorem inv_delete {id : Nat} {s : Sys} (hinv : Inv s) : Inv (tasksDelete id s) := by
  obtain ⟨h1, h2, h3, h4, h5, h6, h7⟩ := hinv
  refine ⟨?_, ?_, ?_, ?_, ?_, ?_, ?_⟩
  · exact h1.sublist ((List.filter_sublist s.tasks).map Task.id)
  · intro t ht
    exact h2 t (List.mem_of_mem_filter ht)
  · intro t ht
    exact h3 t (List.mem_of_mem_filter ht)
  · intro t ht
    exact h4 t (List.mem_of_mem_filter ht)
  · intro t ht
    exact h5 t (List.mem_of_mem_filter ht)
  · exact nodup_clearNotif h6
  · intro tm htm
    have hmem := mem_clearNotif.mp htm
    rcases h7 tm hmem.1 with ⟨t, ht, hid'⟩
    refine ⟨t, List.mem_filter.mpr ⟨ht, ?_⟩, hid'⟩
    simp only [bne_iff_ne, ne_eq]
    rw [hid']
    exact hmem.2

/-- Invariant preservation by `tasks:rescheduleNotifications`. -/
theorem inv_reschedule {now : Int} {s : Sys} (hinv : Inv s) :
    Inv (tasksReschedule now s) := by
  obtain ⟨h1, h2, h3, h4, h5, h6, h7⟩ := hinv
  refine ⟨h1, h2, h3, h4, h5, nodup_foldl_schedule now _ _ h6, ?_⟩
  intro tm htm
  rcases mem_foldl_schedule now _ _ tm htm with htm' | ⟨t, ht, hid'⟩
  · exact h7 tm htm'
  · exact ⟨t, ht, hid'.symm⟩

/-- Invariant preservation by a timer callback. -/
theorem inv_fire {id : Nat} {now : Int} {s : Sys} (hinv : Inv s) :
    Inv (fireStep id now s) := by
  obtain ⟨h1, h2, h3, h4, h5, h6, h7⟩ := hinv
  unfold fireStep
  split
  · exact ⟨h1, h2, h3, h4, h5, nodup_clearNotif h6,
      fun tm htm => h7 tm (mem_clearNotif.mp htm).1⟩
  · exact ⟨h1, h2, h3, h4, h5, h6, h7⟩

/-- Invariant preservation by one step of the system. -/
theorem inv_step {op : Op} {s : Sys} (hinv : Inv s) : Inv (step op s) := by
  cases op with
  | create p now =>
    cases h : tasksCreate p now s with
    | ok pr =>
      obtain ⟨s', newId⟩ := pr
      have hs : step (.create p now) s = s' := by
        simp only [step, h]
      rw [hs]
      exact inv_create hinv h
    | error e =>
      have hs : step (.create p now) s = s := by
        simp only [step, h]
      rw [hs]
      exact hinv
  | update p now =>
    cases h : tasksUpdate p now s with
    | ok s' =>
      have hs : step (.update p now) s = s' := by
        simp only [step, h]
      rw [hs]
      exact inv_update hinv h
    | error e =>
      have hs : step (.update p now) s = s := by
        simp only [step, h]
      rw [hs]
      exact hinv
  | finish id now =>
    cases h : tasksFinish id now s with
    | ok s' =>
      have hs : step (.finish id now) s = s' := by
        simp only [step, h]
      rw [hs]
      exact inv_finish hinv h
    | error e =>
      have hs : step (.finish id now) s = s := by
        simp only [step, h]
      rw [hs]
      exact hinv
  | dnf id now =>
    cases h : tasksDnf id now s with
    | ok s' =>
      have hs : step (.dnf id now) s = s' := by
        simp only [step, h]
      rw [hs]
      exact inv_dnf hinv h
    | error e =>
      have hs : step (.dnf id now) s = s := by
        simp only [step, h]
      rw [hs]
      exact hinv
  | delete id => exact inv_delete hinv
  | reschedule now => exact inv_reschedule hinv
  | fire id now => exact inv_fire hinv

/-- The empty state satisfies the invariant. -/
theorem inv_init : Inv initSys := by
  decide

/-- The invariant holds along every trace. -/
theorem inv_runOps {s : Sys} (hinv : Inv s) : ∀ ops : List Op, Inv (runOps ops s) := by
  intro ops
  induction ops generalizing s with
  | nil => exact hinv
  | cons op rest ih => exact ih (inv_step hinv)

/-- The autoincrement counter never decreases. -/
theorem nextId_step_mono (op : Op) (s : Sys) : s.nextId ≤ (step op s).nextId := by
  cases op with
  | create p now =>
    cases h : tasksCreate p now s with
    | ok pr =>
      obtain ⟨s', newId⟩ := pr
      obtain ⟨hs', -⟩ := tasksCreate_ok h
      have hstep : step (.create p now) s = s' := by
        simp only [step, h]
      rw [hstep, hs']
      exact Nat.le_succ _
    | error e =>
      have hstep : step (.create p now) s = s := by
        simp only [step, h]
      rw [hstep]
  | update p now =>
    cases h : tasksUpdate p now s with
    | ok s' =>
      obtain ⟨current, -, hs'⟩ := tasksUpdate_ok h
      have hstep : step (.update p now) s = s' := by
        simp only [step, h]
      rw [hstep, hs']
    | error e =>
      have hstep : step (.update p now) s = s := by
        simp only [step, h]
      rw [hstep]
  | finish id now =>
    cases h : tasksFinish id now s with
    | ok s' =>
      obtain ⟨task, -, hs'⟩ := tasksFinish_ok h
      have hstep : step (.finish id now) s = s' := by
        simp only [step, h]
      rw [hstep, hs']
    | error e =>
      have hstep : step (.finish id now) s = s := by
        simp only [step, h]
      rw [hstep]
  | dnf id now =>
    cases h : tasksDnf id now s with
    | ok s' =>
      obtain ⟨task, -, hs'⟩ := tasksDnf_ok h
      have hstep : step (.dnf id now) s = s' := by
        simp only [step, h]
      rw [hstep, hs']
    | error e =>
      have hstep : step (.dnf id now) s = s := by
        simp only [step, h]
      rw [hstep]
  | delete id => exact le_refl _
  | reschedule now => exact le_refl _
  | fire id now =>
    show s.nextId ≤ (fireStep id now s).nextId
    unfold fireStep
    split <;> exact le_refl _

/-- A task id that is absent and below the id counter never reappears. -/
theorem findTask_absent_step (op : Op) (s : Sys) (id : Nat)
    (habs : findTask id s = none) (hlt : id < s.nextId) :
    findTask id (step op s) = none := by
  cases op with
  | create p now =>
    cases h : tasksCreate p now s with
    | ok pr =>
      obtain ⟨s', newId⟩ := pr
      obtain ⟨hs', -⟩ := tasksCreate_ok h
      have hstep : step (.create p now) s = s' := by
        simp only [step, h]
      rw [hstep, hs']
      unfold findTask at habs ⊢
      dsimp only
      rw [List.find?_cons_of_neg, habs]
      have : (newTaskOf p now s.nextId).id = s.nextId := rfl
      simp [this]
      exact Nat.ne_of_gt hlt
    | error e =>
      have hstep : step (.create p now) s = s := by
        simp only [step, h]
      rw [hstep]
      exact habs
  | update p now =>
    cases h : tasksUpdate p now s with
    | ok s' =>
      obtain ⟨current, -, hs'⟩ := tasksUpdate_ok h
      have hstep : step (.update p now) s = s' := by
        simp only [step, h]
      rw [hstep, hs']
      unfold findTask at habs ⊢
      dsimp only
      rw [find?_map_idpres _ (updateRow_id p current), habs]
      rfl
    | error e =>
      have hstep : step (.update p now) s = s := by
        simp only [step, h]
      rw [hstep]
      exact habs
  | finish fid now =>
    cases h : tasksFinish fid now s with
    | ok s' =>
      obtain ⟨task, -, hs'⟩ := tasksFinish_ok h
      have hstep : step (.finish fid now) s = s' := by
        simp only [step, h]
      rw [hstep, hs']
      unfold findTask at habs ⊢
      dsimp only
      rw [find?_map_idpres _ (finishRow_id fid now _), habs]
      rfl
    | error e =>
      have hstep : step (.finish fid now) s = s := by
        simp only [step, h]
      rw [hstep]
      exact habs
  | dnf did now =>
    cases h : tasksDnf did now s with
    | ok s' =>
      obtain ⟨task, -, hs'⟩ := tasksDnf_ok h
      have hstep : step (.dnf did now) s = s' := by
        simp only [step, h]
      rw [hstep, hs']
      unfold findTask at habs ⊢
      dsimp only
      rw [find?_map_idpres _ (dnfRow_id did now), habs]
      rfl
    | error e =>
      have hstep : step (.dnf did now) s = s := by
        simp only [step, h]
      rw [hstep]
      exact habs
  | delete did =>
    show findTask id (tasksDelete did s) = none
    unfold findTask at habs ⊢
    unfold tasksDelete
    dsimp only
    rw [List.find?_eq_none] at habs ⊢
    intro t ht
    exact habs t (List.mem_of_mem_filter ht)
  | reschedule now => exact habs
  | fire fid now =>
    show findTask id (fireStep fid now s) = none
    unfold fireStep
    split <;> exact habs

/-- `updateRow` leaves rows with other ids untouched. -/
theorem updateRow_other {p : UpdatePayload} {current t : Task}
    (h : (t.id == p.id) = false) : updateRow p current t = t := by
  unfold updateRow
  rw [if_neg]
  simp [h]

/-- `finishRow` leaves rows with other ids untouched. -/
theorem finishRow_other {id : Nat} {now : Int} {a : Award} {t : Task}
    (h : (t.id == id) = false) : finishRow id now a t = t := by
  unfold finishRow
  rw [if_neg]
  simp [h]

/-- `dnfRow` leaves rows with other ids untouched. -/
theorem dnfRow_other {id : Nat} {now : Int} {t : Task}
    (h : (t.id == id) = false) : dnfRow id now t = t := by
  unfold dnfRow
  rw [if_neg]
  simp [h]

/-- `taskStatus` is `none` exactly when the row is absent. -/
theorem taskStatus_none_iff {id : Nat} {s : Sys} :
    taskStatus id s = none ↔ findTask id s = none := by
  unfold taskStatus
  cases findTask id s <;> simp

/-- `runOps` unfolds one step at a time. -/
theorem runOps_cons (op : Op) (rest : List Op) (s : Sys) :
    runOps (op :: rest) s = runOps rest (step op s) := rfl

/-- An absent id stays absent along any trace. -/
theorem findTask_absent_runOps (ops : List Op) : ∀ (s : Sys) (id : Nat),
    findTask id s = none → id < s.nextId → findTask id (runOps ops s) = none := by
  induction ops with
  | nil => intro s id habs _; exact habs
  | cons op rest ih =>
    intro s id habs hlt
    rw [runOps_cons]
    exact ih (step op s) id (findTask_absent_step op s id habs hlt)
      (lt_of_lt_of_le hlt (nextId_step_mono op s))

/-- One step that does not explicitly set a status for `id` either leaves
the task's status untouched or leaves it absent. -/
theorem taskStatus_step_of_not_sets (op : Op) (s : Sys) (id : Nat)
    (hop : setsStatusFor id op = false) (hlt : id < s.nextId) :
    taskStatus id (step op s) = taskStatus id s ∨ taskStatus id (step op s) = none := by
  cases op with
  | create p now =>
    left
    cases h : tasksCreate p now s with
    | ok pr =>
      obtain ⟨s', newId⟩ := pr
      obtain ⟨hs', -⟩ := tasksCreate_ok h
      have hstep : step (.create p now) s = s' := by
        simp only [step, h]
      rw [hstep, hs']
      unfold taskStatus findTask
      dsimp only
      rw [List.find?_cons_of_neg]
      have : (newTaskOf p now s.nextId).id = s.nextId := rfl
      simp [this]
      exact Nat.ne_of_gt hlt
    | error e =>
      have hstep : step (.create p now) s = s := by
        simp only [step, h]
      rw [hstep]
  | update p now =>
    left
    cases h : tasksUpdate p now s with
    | ok s' =>
      obtain ⟨current, hcur, hs'⟩ := tasksUpdate_ok h
      have hstep : step (.update p now) s = s' := by
        simp only [step, h]
      rw [hstep, hs']
      unfold taskStatus findTask
      dsimp only
      rw [find?_map_idpres _ (updateRow_id p current)]
      simp only [setsStatusFor] at hop
      by_cases hid : (p.id == id) = true
      · have hid' : p.id = id := by simpa using hid
        subst hid'
        have hst : p.status = none := by
          rw [hid] at hop
          simp only [Bool.true_and] at hop
          cases hstt : p.status with
          | none => rfl
          | some st =>
            rw [hstt] at hop
            simp at hop
        unfold findTask at hcur
        rw [hcur]
        simp only [Option.map_some']
        have hmatch : (current.id == p.id) = true := by
          have := List.find?_some hcur
          simpa using this
        unfold updateRow
        rw [if_pos hmatch]
        simp [hst]
      · have hid' : ∀ t : Task, (t.id == id) = true → (t.id == p.id) = false := by
          intro t ht
          have h1 : t.id = id := by simpa using ht
          have h2 : ¬p.id = id := by simpa using hid
          simp [h1]
          exact fun hc => h2 hc.symm
        cases hfind : s.tasks.find? (fun t => t.id == id) with
        | none => rfl
        | some t =>
          have := List.find?_some hfind
          simp only [Option.map_some']
          rw [updateRow_other (hid' t this)]
    | error e =>
      have hstep : step (.update p now) s = s := by
        simp only [step, h]
      rw [hstep]
  | finish fid now =>
    left
    have hfid : (fid == id) = false := by
      simp only [setsStatusFor] at hop
      exact hop
    have hne : ∀ t : Task, (t.id == id) = true → (t.id == fid) = false := by
      intro t ht
      have h1 : t.id = id := by simpa using ht
      have h2 : ¬fid = id := by simpa using hfid
      simp [h1]
      exact fun hc => h2 hc.symm
    cases h : tasksFinish fid now s with
    | ok s' =>
      obtain ⟨task, hcur, hs'⟩ := tasksFinish_ok h
      have hstep : step (.finish fid now) s = s' := by
        simp only [step, h]
      rw [hstep, hs']
      unfold taskStatus findTask
      dsimp only
      rw [find?_map_idpres _ (finishRow_id fid now _)]
      cases hfind : s.tasks.find? (fun t => t.id == id) with
      | none => rfl
      | some t =>
        have := List.find?_some hfind
        simp only [Option.map_some']
        rw [finishRow_other (hne t this)]
    | error e =>
      have hstep : step (.finish fid now) s = s := by
        simp only [step, h]
      rw [hstep]
  | dnf did now =>
    left
    have hdid : (did == id) = false := by
      simp only [setsStatusFor] at hop
      exact hop
    have hne : ∀ t : Task, (t.id == id) = true → (t.id == did) = false := by
      intro t ht
      have h1 : t.id = id := by simpa using ht
      have h2 : ¬did = id := by simpa using hdid
      simp [h1]
      exact fun hc => h2 hc.symm
    cases h : tasksDnf did now s with
    | ok s' =>
      obtain ⟨task, hcur, hs'⟩ := tasksDnf_ok h
      have hstep : step (.dnf did now) s = s' := by
        simp only [step, h]
      rw [hstep, hs']
      unfold taskStatus findTask
      dsimp only
      rw [find?_map_idpres _ (dnfRow_id did now)]
      cases hfind : s.tasks.find? (fun t => t.id == id) with
      | none => rfl
      | some t =>
        have := List.find?_some hfind
        simp only [Option.map_some']
        rw [dnfRow_other (hne t this)]
    | error e =>
      have hstep : step (.dnf did now) s = s := by
        simp only [step, h]
      rw [hstep]
  | delete did =>
    by_cases hdel : (did = id)
    · subst hdel
      right
      rw [taskStatus_none_iff]
      show (s.tasks.filter (fun t => t.id != did)).find? (fun t => t.id == did) = none
      rw [List.find?_eq_none]
      intro t ht
      have := (List.mem_filter.mp ht).2
      simp only [bne_iff_ne, ne_eq] at this
      simp [this]
    · left
      show taskStatus id (tasksDelete did s) = taskStatus id s
      unfold taskStatus findTask tasksDelete
      dsimp only
      rw [find?_filter_keep]
      intro t ht
      have h1 : t.id = id := by simpa using ht
      simp only [bne_iff_ne, ne_eq, h1]
      exact fun hc => hdel hc.symm
  | reschedule now => exact Or.inl rfl
  | fire fid now =>
    left
    show taskStatus id (fireStep fid now s) = taskStatus id s
    unfold fireStep
    split <;> rfl

/-- Along a trace containing no operation that explicitly sets a status
for `id`, the task's status is preserved (or the task is absent). -/
theorem status_stable (ops : List Op) : ∀ (s : Sys) (id : Nat), id < s.nextId →
    (∀ op ∈ ops, setsStatusFor id op = false) →
    taskStatus id (runOps ops s) = taskStatus id s ∨
      taskStatus id (runOps ops s) = none := by
  induction ops with
  | nil =>
    intro s id _ _
    exact Or.inl rfl
  | cons op rest ih =>
    intro s id hlt hops
    have hop := hops op (List.mem_cons_self _ _)
    have hrest : ∀ o ∈ rest, setsStatusFor id o = false :=
      fun o ho => hops o (List.mem_cons_of_mem _ ho)
    have hlt' : id < (step op s).nextId := lt_of_lt_of_le hlt (nextId_step_mono op s)
    rw [runOps_cons]
    rcases taskStatus_step_of_not_sets op s id hop hlt with hstep | hstep
    · rcases ih (step op s) id hlt' hrest with h' | h'
      · exact Or.inl (by rw [h', hstep])
      · exact Or.inr h'
    · right
      rw [taskStatus_none_iff] at hstep ⊢
      exact findTask_absent_runOps rest (step op s) id hstep hlt'

/-- `rearmFrom` for another id leaves the search for `id` unchanged. -/
theorem timFind_rearmFrom_other {id j : Nat} (h : id ≠ j) (tasks : List Task)
    (now : Int) (tms : List Timer) :
    (rearmFrom tasks j now tms).find? (fun tm => tm.id == id) =
      tms.find? (fun tm => tm.id == id) := by
  unfold rearmFrom
  split
  next updated hupd =>
    have hid : updated.id = j := by simpa using List.find?_some hupd
    refine timFind_schedule_other ?_ now tms
    rw [hid]
    exact h
  next => rfl

/-- `rearmFrom` on an id whose rows are all terminal arms nothing. -/
theorem timFind_rearmFrom_self {j : Nat} (tasks : List Task) (now : Int)
    (tms : List Timer)
    (hterm : ∀ t ∈ tasks, t.id = j → (t.status = "finish" ∨ t.status = "dnf"))
    (htim : tms.find? (fun tm => tm.id == j) = none) :
    (rearmFrom tasks j now tms).find? (fun tm => tm.id == j) = none := by
  unfold rearmFrom
  split
  next updated hupd =>
    have hid : updated.id = j := by simpa using List.find?_some hupd
    have := timFind_schedule_terminal
      (hterm updated (List.mem_of_find?_eq_some hupd) hid) now tms
    rw [hid] at this
    exact this
  next => exact htim

/-- With no pending timer for `id`, its callback cannot run. -/
theorem fireEnabled_eq_false {id : Nat} {now : Int} {s : Sys}
    (htim : s.timers.find? (fun tm => tm.id == id) = none) :
    fireEnabled id now s = false := by
  unfold fireEnabled
  rw [List.any_eq_false]
  intro tm htm
  have h1 := List.find?_eq_none.mp htim tm htm
  simp only [Bool.not_eq_true] at h1
  simp [h1]

/-- One step preserves "every row with this id is terminal and no timer for
it is pending", provided the step does not set a non-terminal status on the
id. -/
theorem safe_step (op : Op) (s : Sys) (id : Nat)
    (hlt : id < s.nextId)
    (hop : rearmsFor id op = false)
    (hterm : ∀ t ∈ s.tasks, t.id = id → (t.status = "finish" ∨ t.status = "dnf"))
    (htim : s.timers.find? (fun tm => tm.id == id) = none) :
    (∀ t ∈ (step op s).tasks, t.id = id → (t.status = "finish" ∨ t.status = "dnf")) ∧
      (step op s).timers.find? (fun tm => tm.id == id) = none := by
  cases op with
  | create p now =>
    cases h : tasksCreate p now s with
    | ok pr =>
      obtain ⟨s', newId⟩ := pr
      obtain ⟨hs', -⟩ := tasksCreate_ok h
      have hstep : step (.create p now) s = s' := by
        simp only [step, h]
      rw [hstep, hs']
      constructor
      · intro t ht hid'
        rcases List.mem_cons.mp ht with rfl | ht
        · exact absurd hid' (Nat.ne_of_lt hlt).symm
        · exact hterm t ht hid'
      · have hne : id ≠ (newTaskOf p now s.nextId).id := Nat.ne_of_lt hlt
        show (scheduleDeadlineNotif (newTaskOf p now s.nextId) now s.timers).find?
          (fun tm => tm.id == id) = none
        rw [timFind_schedule_other hne]
        exact htim
    | error e =>
      have hstep : step (.create p now) s = s := by
        simp only [step, h]
      rw [hstep]
      exact ⟨hterm, htim⟩
  | update p now =>
    cases h : tasksUpdate p now s with
    | ok s' =>
      obtain ⟨current, hcur, hs'⟩ := tasksUpdate_ok h
      have hstep : step (.update p now) s = s' := by
        simp only [step, h]
      rw [hstep, hs']
      simp only [rearmsFor] at hop
      by_cases hpid : (p.id == id) = true
      · have hpid' : p.id = id := by simpa using hpid
        rw [hpid] at hop
        simp only [Bool.true_and] at hop
        have hcurid : current.id = id := by
          have := List.find?_some hcur
          have h1 : current.id = p.id := by simpa using this
          rw [h1, hpid']
        have hcurmem : current ∈ s.tasks := List.mem_of_find?_eq_some hcur
        have hnewstatus : (p.status.getD current.status) = "finish" ∨
            (p.status.getD current.status) = "dnf" := by
          cases hstt : p.status with
          | none => exact hterm current hcurmem hcurid
          | some st =>
            rw [hstt] at hop
            dsimp only at hop
            by_cases h1 : st = "finish"
            · exact Or.inl h1
            · by_cases h2 : st = "dnf"
              · exact Or.inr h2
              · exfalso
                simp [h1, h2] at hop
        have hterm' : ∀ t ∈ s.tasks.map (updateRow p current), t.id = id →
            (t.status = "finish" ∨ t.status = "dnf") := by
          refine forall_mem_map ?_
          intro t ht hid'
          rw [updateRow_id] at hid'
          have hmatch : (t.id == p.id) = true := by
            simp [hid', hpid']
          unfold updateRow
          rw [if_pos hmatch]
          exact hnewstatus
        refine ⟨hterm', ?_⟩
        show (rearmFrom (s.tasks.map (updateRow p current)) p.id now s.timers).find?
          (fun tm => tm.id == id) = none
        rw [hpid']
        refine timFind_rearmFrom_self _ now _ ?_ htim
        intro t ht hid'
        exact hterm' t ht hid'
      · have hpid' : ¬p.id = id := by simpa using hpid
        constructor
        · refine forall_mem_map ?_
          intro t ht hid'
          rw [updateRow_id] at hid'
          have hmatch : (t.id == p.id) = false := by
            simp [hid']
            exact fun hc => hpid' hc.symm
          rw [updateRow_other hmatch]
          exact hterm t ht hid'
        · show (rearmFrom (s.tasks.map (updateRow p current)) p.id now s.timers).find?
            (fun tm => tm.id == id) = none
          rw [timFind_rearmFrom_other (fun hc => hpid' hc.symm)]
          exact htim
    | error e =>
      have hstep : step (.update p now) s = s := by
        simp only [step, h]
      rw [hstep]
      exact ⟨hterm, htim⟩
  | finish fid now =>
    cases h : tasksFinish fid now s with
    | ok s' =>
      obtain ⟨task, hcur, hs'⟩ := tasksFinish_ok h
      have hstep : step (.finish fid now) s = s' := by
        simp only [step, h]
      rw [hstep, hs']
      constructor
      · refine forall_mem_map ?_
        intro t ht hid'
        rw [finishRow_id] at hid'
        unfold finishRow
        by_cases hmatch : (t.id == fid) = true
        · rw [if_pos hmatch]
          exact Or.inl rfl
        · rw [if_neg hmatch]
          exact hterm t ht hid'
      · exact timFind_clearNotif_none htim
    | error e =>
      have hstep : step (.finish fid now) s = s := by
        simp only [step, h]
      rw [hstep]
      exact ⟨hterm, htim⟩
  | dnf did now =>
    cases h : tasksDnf did now s with
    | ok s' =>
      obtain ⟨task, hcur, hs'⟩ := tasksDnf_ok h
      have hstep : step (.dnf did now) s = s' := by
        simp only [step, h]
      rw [hstep, hs']
      constructor
      · refine forall_mem_map ?_
        intro t ht hid'
        rw [dnfRow_id] at hid'
        unfold dnfRow
        by_cases hmatch : (t.id == did) = true
        · rw [if_pos hmatch]
          exact Or.inr rfl
        · rw [if_neg hmatch]
          exact hterm t ht hid'
      · exact timFind_clearNotif_none htim
    | error e =>
      have hstep : step (.dnf did now) s = s := by
        simp only [step, h]
      rw [hstep]
      exact ⟨hterm, htim⟩
  | delete did =>
    constructor
    · intro t ht hid'
      exact hterm t (List.mem_of_mem_filter ht) hid'
    · exact timFind_clearNotif_none htim
  | reschedule now =>
    exact ⟨hterm, timFind_foldl_schedule_none now s.tasks s.timers hterm htim⟩
  | fire fid now =>
    show (∀ t ∈ (fireStep fid now s).tasks, t.id = id →
        (t.status = "finish" ∨ t.status = "dnf")) ∧
      (fireStep fid now s).timers.find? (fun tm => tm.id == id) = none
    unfold fireStep
    split
    · exact ⟨hterm, timFind_clearNotif_none htim⟩
    · exact ⟨hterm, htim⟩

/-- Along a trace that never resets the id's status to a non-terminal
value, a terminal task with no pending timer never produces a
notification. -/
theorem no_fire_of_safe (ops : List Op) : ∀ (s : Sys) (id : Nat),
    id < s.nextId →
    (∀ op ∈ ops, rearmsFor id op = false) →
    (∀ t ∈ s.tasks, t.id = id → (t.status = "finish" ∨ t.status = "dnf")) →
    s.timers.find? (fun tm => tm.id == id) = none →
    notifFiresB id ops s = false := by
  induction ops with
  | nil =>
    intro s id _ _ _ _
    rfl
  | cons op rest ih =>
    intro s id hlt hops hterm htim
    have hop := hops op (List.mem_cons_self _ _)
    have hrest : ∀ o ∈ rest, rearmsFor id o = false :=
      fun o ho => hops o (List.mem_cons_of_mem _ ho)
    obtain ⟨hterm', htim'⟩ := safe_step op s id hlt hop hterm htim
    have htail : notifFiresB id rest (step op s) = false :=
      ih (step op s) id (lt_of_lt_of_le hlt (nextId_step_mono op s)) hrest hterm' htim'
    cases op with
    | fire j now =>
      show (j == id && fireEnabled id now s ||
        notifFiresB id rest (step (.fire j now) s)) = false
      rw [fireEnabled_eq_false htim, Bool.and_false, Bool.false_or]
      exact htail
    | create p now =>
      show (false || notifFiresB id rest (step (.create p now) s)) = false
      rw [Bool.false_or]
      exact htail
    | update p now =>
      show (false || notifFiresB id rest (step (.update p now) s)) = false
      rw [Bool.false_or]
      exact htail
    | finish fid now =>
      show (false || notifFiresB id rest (step (.finish fid now) s)) = false
      rw [Bool.false_or]
      exact htail
    | dnf did now =>
      show (false || notifFiresB id rest (step (.dnf did now) s)) = false
      rw [Bool.false_or]
      exact htail
    | delete did =>
      show (false || notifFiresB id rest (step (.delete did) s)) = false
      rw [Bool.false_or]
      exact htail
    | reschedule now =>
      show (false || notifFiresB id rest (step (.reschedule now) s)) = false
      rw [Bool.false_or]
      exact htail

/-- One step preserves "the id has no row and no pending timer". -/
theorem absent_safe_step (op : Op) (s : Sys) (id : Nat)
    (hlt : id < s.nextId)
    (habs : findTask id s = none)
    (htim : s.timers.find? (fun tm => tm.id == id) = none) :
    findTask id (step op s) = none ∧
      (step op s).timers.find? (fun tm => tm.id == id) = none := by
  refine ⟨findTask_absent_step op s id habs hlt, ?_⟩
  cases op with
  | create p now =>
    cases h : tasksCreate p now s with
    | ok pr =>
      obtain ⟨s', newId⟩ := pr
      obtain ⟨hs', -⟩ := tasksCreate_ok h
      have hstep : step (.create p now) s = s' := by
        simp only [step, h]
      rw [hstep, hs']
      show (scheduleDeadlineNotif (newTaskOf p now s.nextId) now s.timers).find?
        (fun tm => tm.id == id) = none
      rw [timFind_schedule_other (Nat.ne_of_lt hlt)]
      exact htim
    | error e =>
      have hstep : step (.create p now) s = s := by
        simp only [step, h]
      rw [hstep]
      exact htim
  | update p now =>
    cases h : tasksUpdate p now s with
    | ok s' =>
      obtain ⟨current, hcur, hs'⟩ := tasksUpdate_ok h
      have hstep : step (.update p now) s = s' := by
        simp only [step, h]
      have hpid : ¬p.id = id := by
        intro hc
        rw [hc, habs] at hcur
        cases hcur
      rw [hstep, hs']
      show (rearmFrom (s.tasks.map (updateRow p current)) p.id now s.timers).find?
        (fun tm => tm.id == id) = none
      rw [timFind_rearmFrom_other (fun hc => hpid hc.symm)]
      exact htim
    | error e =>
      have hstep : step (.update p now) s = s := by
        simp only [step, h]
      rw [hstep]
      exact htim
  | finish fid now =>
    cases h : tasksFinish fid now s with
    | ok s' =>
      obtain ⟨task, hcur, hs'⟩ := tasksFinish_ok h
      have hstep : step (.finish fid now) s = s' := by
        simp only [step, h]
      rw [hstep, hs']
      exact timFind_clearNotif_none htim
    | error e =>
      have hstep : step (.finish fid now) s = s := by
        simp only [step, h]
      rw [hstep]
      exact htim
  | dnf did now =>
    cases h : tasksDnf did now s with
    | ok s' =>
      obtain ⟨task, hcur, hs'⟩ := tasksDnf_ok h
      have hstep : step (.dnf did now) s = s' := by
        simp only [step, h]
      rw [hstep, hs']
      exact timFind_clearNotif_none htim
    | error e =>
      have hstep : step (.dnf did now) s = s := by
        simp only [step, h]
      rw [hstep]
      exact htim
  | delete did => exact timFind_clearNotif_none htim
  | reschedule now =>
    have hterm : ∀ t ∈ s.tasks, t.id = id →
        (t.status = "finish" ∨ t.status = "dnf") := by
      intro t ht hid'
      have := List.find?_eq_none.mp habs t ht
      simp [hid'] at this
    exact timFind_foldl_schedule_none now s.tasks s.timers hterm htim
  | fire fid now =>
    show (fireStep fid now s).timers.find? (fun tm => tm.id == id) = none
    unfold fireStep
    split
    · exact timFind_clearNotif_none htim
    · exact htim

/-- Along any trace whatsoever, an id with no row and no pending timer
never produces a notification. -/
theorem no_fire_of_absent (ops : List Op) : ∀ (s : Sys) (id : Nat),
    id < s.nextId →
    findTask id s = none →
    s.timers.find? (fun tm => tm.id == id) = none →
    notifFiresB id ops s = false := by
  induction ops with
  | nil =>
    intro s id _ _ _
    rfl
  | cons op rest ih =>
    intro s id hlt habs htim
    obtain ⟨habs', htim'⟩ := absent_safe_step op s id hlt habs htim
    have htail : notifFiresB id rest (step op s) = false :=
      ih (step op s) id (lt_of_lt_of_le hlt (nextId_step_mono op s)) habs' htim'
    cases op with
    | fire j now =>
      show (j == id && fireEnabled id now s ||
        notifFiresB id rest (step (.fire j now) s)) = false
      rw [fireEnabled_eq_false htim, Bool.and_false, Bool.false_or]
      exact htail
    | create p now =>
      show (false || notifFiresB id rest (step (.create p now) s)) = false
      rw [Bool.false_or]
      exact htail
    | update p now =>
      show (false || notifFiresB id rest (step (.update p now) s)) = false
      rw [Bool.false_or]
      exact htail
    | finish fid now =>
      show (false || notifFiresB id rest (step (.finish fid now) s)) = false
      rw [Bool.false_or]
      exact htail
    | dnf did now =>
      show (false || notifFiresB id rest (step (.dnf did now) s)) = false
      rw [Bool.false_or]
      exact htail
    | delete did =>
      show (false || notifFiresB id rest (step (.delete did) s)) = false
      rw [Bool.false_or]
      exact htail
    | reschedule now =>
      show (false || notifFiresB id rest (step (.reschedule now) s)) = false
      rw [Bool.false_or]
      exact htail

/-- A step that is not a finish/dnf of `id` keeps `finished_at` null for
every row with that id. -/
theorem finishedAt_none_step (op : Op) (s : Sys) (id : Nat)
    (hop : touchesTerminal id op = false)
    (h : ∀ t ∈ s.tasks, t.id = id → t.finished_at = none) :
    ∀ t ∈ (step op s).tasks, t.id = id → t.finished_at = none := by
  cases op with
  | create p now =>
    cases hc : tasksCreate p now s with
    | ok pr =>
      obtain ⟨s', newId⟩ := pr
      obtain ⟨hs', -⟩ := tasksCreate_ok hc
      have hstep : step (.create p now) s = s' := by
        simp only [step, hc]
      rw [hstep, hs']
      intro t ht hid'
      rcases List.mem_cons.mp ht with rfl | ht
      · rfl
      · exact h t ht hid'
    | error e =>
      have hstep : step (.create p now) s = s := by
        simp only [step, hc]
      rw [hstep]
      exact h
  | update p now =>
    cases hc : tasksUpdate p now s with
    | ok s' =>
      obtain ⟨current, hcur, hs'⟩ := tasksUpdate_ok hc
      have hstep : step (.update p now) s = s' := by
        simp only [step, hc]
      rw [hstep, hs']
      refine forall_mem_map ?_
      intro t ht hid'
      rw [updateRow_id] at hid'
      unfold updateRow
      split
      · exact h t ht hid'
      · exact h t ht hid'
    | error e =>
      have hstep : step (.update p now) s = s := by
        simp only [step, hc]
      rw [hstep]
      exact h
  | finish fid now =>
    have hfid : (fid == id) = false := by
      simp only [touchesTerminal] at hop
      exact hop
    cases hc : tasksFinish fid now s with
    | ok s' =>
      obtain ⟨task, hcur, hs'⟩ := tasksFinish_ok hc
      have hstep : step (.finish fid now) s = s' := by
        simp only [step, hc]
      rw [hstep, hs']
      refine forall_mem_map ?_
      intro t ht hid'
      rw [finishRow_id] at hid'
      have hne : (t.id == fid) = false := by
        have h1 : ¬fid = id := by simpa using hfid
        simp [hid']
        exact fun hcc => h1 hcc.symm
      rw [finishRow_other hne]
      exact h t ht hid'
    | error e =>
      have hstep : step (.finish fid now) s = s := by
        simp only [step, hc]
      rw [hstep]
      exact h
  | dnf did now =>
    have hdid : (did == id) = false := by
      simp only [touchesTerminal] at hop
      exact hop
    cases hc : tasksDnf did now s with
    | ok s' =>
      obtain ⟨task, hcur, hs'⟩ := tasksDnf_ok hc
      have hstep : step (.dnf did now) s = s' := by
        simp only [step, hc]
      rw [hstep, hs']
      refine forall_mem_map ?_
      intro t ht hid'
      rw [dnfRow_id] at hid'
      have hne : (t.id == did) = false := by
        have h1 : ¬did = id := by simpa using hdid
        simp [hid']
        exact fun hcc => h1 hcc.symm
      rw [dnfRow_other hne]
      exact h t ht hid'
    | error e =>
      have hstep : step (.dnf did now) s = s := by
        simp only [step, hc]
      rw [hstep]
      exact h
  | delete did =>
    intro t ht hid'
    exact h t (List.mem_of_mem_filter ht) hid'
  | reschedule now => exact h
  | fire fid now =>
    show ∀ t ∈ (fireStep fid now s).tasks, t.id = id → t.finished_at = none
    unfold fireStep
    split
    · exact h
    · exact h

/-- Along a trace with no finish/dnf of `id`, `finished_at` stays null for
every row with that id. -/
theorem finishedAt_none_runOps (ops : List Op) : ∀ (s : Sys) (id : Nat),
    (∀ op ∈ ops, touchesTerminal id op = false) →
    (∀ t ∈ s.tasks, t.id = id → t.finished_at = none) →
    ∀ t ∈ (runOps ops s).tasks, t.id = id → t.finished_at = none := by
  induction ops with
  | nil =>
    intro s id _ h
    exact h
  | cons op rest ih =>
    intro s id hops h
    rw [runOps_cons]
    exact ih (step op s) id (fun o ho => hops o (List.mem_cons_of_mem _ ho))
      (finishedAt_none_step op s id (hops op (List.mem_cons_self _ _)) h)

/-- C1: counterexample to the terminal-once law — the example task reaches
the terminal status `finish`, and a later `tasks:update` carrying the
status field `progress` (exactly the payload the renderer's `incLap`
sends) moves its status back to `progress`. -/
theorem c1_terminal_once_counterexample :
    taskStatus 1 exTerminalState = some "finish" ∧
    taskStatus 1 (step exIncLapOp exTerminalState) = some "progress" ∧
    (some "progress" : Option String) ≠ some "finish" := by
  decide

/-- C1 (amended): once a task's status is terminal, it is changed only by
an operation that explicitly writes a status for that id — `tasks:update`
carrying a status field (which is what `incrementLap` sends), `tasks:finish`
or `tasks:dnf`; along any trace free of such operations the status is
preserved as long as the row exists, and an update that does carry a
status field writes exactly that value, whatever the prior status was. -/
theorem c1_terminal_once_amended :
    (∀ (s : Sys) (t : Task), Inv s → t ∈ s.tasks →
      (t.status = "finish" ∨ t.status = "dnf") →
      ∀ ops : List Op, (∀ op ∈ ops, setsStatusFor t.id op = false) →
        taskStatus t.id (runOps ops s) = taskStatus t.id s ∨
          taskStatus t.id (runOps ops s) = none) ∧
    (∀ (p : UpdatePayload) (now : Int) (s s' : Sys) (st : String),
      tasksUpdate p now s = .ok s' → p.status = some st →
      taskStatus p.id s' = some st) := by
  constructor
  · intro s t hinv ht _hterm ops hops
    exact status_stable ops s t.id (hinv.2.1 t ht) hops
  · intro p now s s' st h hst
    obtain ⟨current, hcur, hs'⟩ := tasksUpdate_ok h
    subst hs'
    unfold taskStatus findTask
    dsimp only
    rw [find?_map_idpres _ (updateRow_id p current)]
    unfold findTask at hcur
    rw [hcur]
    simp only [Option.map_some']
    have hmatch : (current.id == p.id) = true := by
      have := List.find?_some hcur
      simpa using this
    unfold updateRow
    rw [if_pos hmatch]
    simp [hst]

/-- C1 witness: the amended statement applied to the finished example
task — an update without a status field preserves the terminal status,
and the `incLap` update writes `progress`. -/
theorem c1_terminal_once_amended_witness :
    (taskStatus 1 (runOps [exNoStatusOp] exTerminalState) =
        taskStatus 1 exTerminalState ∨
      taskStatus 1 (runOps [exNoStatusOp] exTerminalState) = none) ∧
    taskStatus 1 (step exIncLapOp exTerminalState) = some "progress" :=
  ⟨c1_terminal_once_amended.1 exTerminalState exFinishedTask (by decide) (by decide)
      (by decide) [exNoStatusOp] (by decide),
    c1_terminal_once_amended.2 (incLapPayload exFinishedTask) 20 exTerminalState
      (step exIncLapOp exTerminalState) "progress" (by decide) (by decide)⟩

/-- C2: the dnf handler accepts the already-finished example task and
overwrites its award and `finished_at` — a second point computation —
instead of rejecting it or leaving the row unchanged. -/
theorem c2_refinish_overwrites :
    taskStatus 1 exTerminalState = some "finish" ∧
    taskAward 1 exTerminalState =
      some { base := 8, bonus := 0, penalty := 0, total := 8 } ∧
    taskFinishedAt 1 exTerminalState = some (some 10) ∧
    tasksDnf 1 200 exTerminalState = .ok (step (.dnf 1 200) exTerminalState) ∧
    taskStatus 1 (step (.dnf 1 200) exTerminalState) = some "dnf" ∧
    taskAward 1 (step (.dnf 1 200) exTerminalState) =
      some { base := 0, bonus := 0, penalty := -5, total := -5 } ∧
    taskFinishedAt 1 (step (.dnf 1 200) exTerminalState) = some (some 200) := by
  decide

/-- C3: after every trace from the empty store, each persisted task
satisfies the points-sum equation, and a task never subjected to a
finish/dnf has all four points fields zero. -/
theorem c3_points_invariant (ops : List Op) :
    (∀ t ∈ (runOps ops initSys).tasks,
      t.points_total = t.points_base + t.points_bonus + t.points_penalty) ∧
    (∀ t ∈ (runOps ops initSys).tasks,
      (∀ op ∈ ops, touchesTerminal t.id op = false) →
      t.points_base = 0 ∧ t.points_bonus = 0 ∧ t.points_penalty = 0 ∧
        t.points_total = 0) := by
  have hinv : Inv (runOps ops initSys) := inv_runOps inv_init ops
  constructor
  · exact hinv.2.2.1
  · intro t ht hops
    have hfin : t.finished_at = none :=
      finishedAt_none_runOps ops initSys t.id hops
        (by intro t' ht' _; cases ht') t ht rfl
    exact hinv.2.2.2.1 t ht hfin

/-- C3 witness: the invariant instantiated on a create-then-update trace
with no terminal transition. -/
theorem c3_points_invariant_witness :
    (exPointsTask.points_total = exPointsTask.points_base +
      exPointsTask.points_bonus + exPointsTask.points_penalty) ∧
    (exPointsTask.points_base = 0 ∧ exPointsTask.points_bonus = 0 ∧
      exPointsTask.points_penalty = 0 ∧ exPointsTask.points_total = 0) :=
  ⟨(c3_points_invariant exPointsOps).1 exPointsTask (by decide),
    (c3_points_invariant exPointsOps).2 exPointsTask (by decide) (by decide)⟩

/-- C4: counterexample to "all rule values are taken from the injected
PointsRules configuration" — for a configuration carrying the renderer's
own suggested `dnfPenaltyPoints = -3`, the spec's dnf award differs from
the award the handler writes: the engine's values are hard-coded, not
injected. -/
theorem c4_scoring_counterexample :
    specDnfAward exampleRules ≠ codeDnfAward ∧
    specDnfAward exampleRules =
      { base := 0, bonus := 0, penalty := -3, total := -3 } ∧
    codeDnfAward = { base := 0, bonus := 0, penalty := -5, total := -5 } := by
  decide

/-- C4 (amended): the terminal scoring postconditions hold exactly for the
one fixed rules value hard-coded in the handlers (`basePoints` table,
grace 3 days, late penalty −5, dnf penalty −5): the finish handler writes
the spec's finish award at those rules for the frozen scoring category and
stored deadline, and the dnf handler writes the spec's dnf award; both
stamp `finished_at` and the terminal status. -/
theorem c4_scoring_amended :
    (∀ (cat : String) (deadline : Option Int) (finishedAt : Int),
      codeFinishAward cat deadline finishedAt =
        specFinishAward defaultRules cat deadline finishedAt) ∧
    codeDnfAward = specDnfAward defaultRules ∧
    (∀ (s s' : Sys) (id : Nat) (now : Int) (t : Task),
      tasksFinish id now s = .ok s' → findTask id s = some t →
      t.status ≠ "finish" → t.status ≠ "dnf" →
      taskAward id s' =
          some (specFinishAward defaultRules (scoreTypeOf t) t.deadline now) ∧
        taskFinishedAt id s' = some (some now) ∧
        taskStatus id s' = some "finish") ∧
    (∀ (s s' : Sys) (id : Nat) (now : Int) (t : Task),
      tasksDnf id now s = .ok s' → findTask id s = some t →
      t.status ≠ "finish" → t.status ≠ "dnf" →
      taskAward id s' = some (specDnfAward defaultRules) ∧
        taskFinishedAt id s' = some (some now) ∧
        taskStatus id s' = some "dnf") := by
  have hfs : ∀ (cat : String) (deadline : Option Int) (finishedAt : Int),
      codeFinishAward cat deadline finishedAt =
        specFinishAward defaultRules cat deadline finishedAt := by
    intro cat deadline finishedAt
    cases deadline <;>
      simp [codeFinishAward, specFinishAward, defaultRules, isLateByDays]
  refine ⟨hfs, by decide, ?_, ?_⟩
  · intro s s' id now t h hfind _hns _hnd
    obtain ⟨task, hcur, hs'⟩ := tasksFinish_ok h
    rw [hfind] at hcur
    injection hcur with htask
    subst htask
    subst hs'
    have hmatch : (t.id == id) = true := by
      simpa using List.find?_some hfind
    refine ⟨?_, ?_, ?_⟩
    · unfold taskAward findTask
      dsimp only
      rw [find?_map_idpres _ (finishRow_id id now _)]
      unfold findTask at hfind
      rw [hfind]
      simp only [Option.map_some']
      unfold finishRow
      rw [if_pos hmatch]
      rw [← hfs]
    · unfold taskFinishedAt findTask
      dsimp only
      rw [find?_map_idpres _ (finishRow_id id now _)]
      unfold findTask at hfind
      rw [hfind]
      simp only [Option.map_some']
      unfold finishRow
      rw [if_pos hmatch]
    · unfold taskStatus findTask
      dsimp only
      rw [find?_map_idpres _ (finishRow_id id now _)]
      unfold findTask at hfind
      rw [hfind]
      simp only [Option.map_some']
      unfold finishRow
      rw [if_pos hmatch]
  · intro s s' id now t h hfind _hns _hnd
    obtain ⟨task, hcur, hs'⟩ := tasksDnf_ok h
    subst hs'
    have hmatch : (t.id == id) = true := by
      simpa using List.find?_some hfind
    refine ⟨?_, ?_, ?_⟩
    · unfold taskAward findTask
      dsimp only
      rw [find?_map_idpres _ (dnfRow_id id now)]
      unfold findTask at hfind
      rw [hfind]
      simp only [Option.map_some']
      unfold dnfRow
      rw [if_pos hmatch]
      show some codeDnfAward = some (specDnfAward defaultRules)
      rw [show codeDnfAward = specDnfAward defaultRules from by decide]
    · unfold taskFinishedAt findTask
      dsimp only
      rw [find?_map_idpres _ (dnfRow_id id now)]
      unfold findTask at hfind
      rw [hfind]
      simp only [Option.map_some']
      unfold dnfRow
      rw [if_pos hmatch]
    · unfold taskStatus findTask
      dsimp only
      rw [find?_map_idpres _ (dnfRow_id id now)]
      unfold findTask at hfind
      rw [hfind]
      simp only [Option.map_some']
      unfold dnfRow
      rw [if_pos hmatch]

/-- C4 witness: finishing the freshly created example task (bucket
`sprint`, no deadline) writes exactly the spec award at the hard-coded
rules: 8 base points, no penalty, total 8. -/
theorem c4_scoring_amended_witness :
    taskAward 1 exTerminalState =
      some (specFinishAward defaultRules "sprint" none 10) ∧
    taskFinishedAt 1 exTerminalState = some (some 10) ∧
    taskStatus 1 exTerminalState = some "finish" :=
  c4_scoring_amended.2.2.1 exStartState exTerminalState 1 10 exStartTask
    (by decide) (by decide) (by decide) (by decide)

/-- C5: counterexample — an update that changes the bucket of a
non-terminal task while simultaneously setting a terminal status leaves
`points_session_type` unsynced: the task was non-terminal (`start`) and
the caller changed the bucket to `race`, yet the scoring category stays
`sprint`, which is also not the bucket (`race`) the task holds at the
moment of this terminal transition. -/
theorem c5_scoring_category_counterexample :
    taskStatus 1 exStartState = some "start" ∧
    taskScoringCategory 1 exStartState = some "sprint" ∧
    taskStatus 1 (step exBucketAndFinishOp exStartState) = some "finish" ∧
    taskSessionType 1 (step exBucketAndFinishOp exStartState) = some "race" ∧
    taskScoringCategory 1 (step exBucketAndFinishOp exStartState) = some "sprint" := by
  decide

/-- C5 (amended): `tasks:update` re-syncs the scoring category to the new
bucket exactly when the payload carries a bucket and the update's
resulting status is non-terminal, and otherwise leaves it at the stored
value; `tasks:finish` and `tasks:dnf` never modify the scoring category
while forcing the bucket to the archive value `parc`. -/
theorem c5_scoring_category_amended :
    (∀ (p : UpdatePayload) (now : Int) (s s' : Sys) (cur : Task),
      tasksUpdate p now s = .ok s' → findTask p.id s = some cur →
      taskScoringCategory p.id s' = some (
        if !(p.status.getD cur.status == "finish" ||
              p.status.getD cur.status == "dnf") && p.session_type.isSome then
          p.session_type.getD cur.session_type
        else cur.points_session_type)) ∧
    (∀ (s s' : Sys) (id : Nat) (now : Int) (cur : Task),
      tasksFinish id now s = .ok s' → findTask id s = some cur →
      taskScoringCategory id s' = some cur.points_session_type ∧
        taskSessionType id s' = some "parc") ∧
    (∀ (s s' : Sys) (id : Nat) (now : Int) (cur : Task),
      tasksDnf id now s = .ok s' → findTask id s = some cur →
      taskScoringCategory id s' = some cur.points_session_type ∧
        taskSessionType id s' = some "parc") := by
  refine ⟨?_, ?_, ?_⟩
  · intro p now s s' cur h hfind
    obtain ⟨current, hcur, hs'⟩ := tasksUpdate_ok h
    rw [hfind] at hcur
    injection hcur with hcur'
    subst hcur'
    subst hs'
    have hmatch : (cur.id == p.id) = true := by
      simpa using List.find?_some hfind
    unfold taskScoringCategory findTask
    dsimp only
    rw [find?_map_idpres _ (updateRow_id p cur)]
    unfold findTask at hfind
    rw [hfind]
    simp only [Option.map_some']
    unfold updateRow
    rw [if_pos hmatch]
  · intro s s' id now cur h hfind
    obtain ⟨task, hcur, hs'⟩ := tasksFinish_ok h
    rw [hfind] at hcur
    injection hcur with hcur'
    subst hcur'
    subst hs'
    have hmatch : (cur.id == id) = true := by
      simpa using List.find?_some hfind
    constructor
    · unfold taskScoringCategory findTask
      dsimp only
      rw [find?_map_idpres _ (finishRow_id id now _)]
      unfold findTask at hfind
      rw [hfind]
      simp only [Option.map_some']
      unfold finishRow
      rw [if_pos hmatch]
    · unfold taskSessionType findTask
      dsimp only
      rw [find?_map_idpres _ (finishRow_id id now _)]
      unfold findTask at hfind
      rw [hfind]
      simp only [Option.map_some']
      unfold finishRow
      rw [if_pos hmatch]
  · intro s s' id now cur h hfind
    obtain ⟨task, hcur, hs'⟩ := tasksDnf_ok h
    subst hs'
    have hmatch : (cur.id == id) = true := by
      simpa using List.find?_some hfind
    constructor
    · unfold taskScoringCategory findTask
      dsimp only
      rw [find?_map_idpres _ (dnfRow_id id now)]
      unfold findTask at hfind
      rw [hfind]
      simp only [Option.map_some']
      unfold dnfRow
      rw [if_pos hmatch]
    · unfold taskSessionType findTask
      dsimp only
      rw [find?_map_idpres _ (dnfRow_id id now)]
      unfold findTask at hfind
      rw [hfind]
      simp only [Option.map_some']
      unfold dnfRow
      rw [if_pos hmatch]

/-- C5 witness: the bucket-plus-finish update leaves the scoring category
at `sprint`, and the plain finish handler freezes it while archiving the
bucket. -/
theorem c5_scoring_category_amended_witness :
    taskScoringCategory 1 (step exBucketAndFinishOp exStartState) =
      some (if !(exBucketAndFinishPayload.status.getD exStartTask.status == "finish" ||
            exBucketAndFinishPayload.status.getD exStartTask.status == "dnf") &&
            exBucketAndFinishPayload.session_type.isSome then
          exBucketAndFinishPayload.session_type.getD exStartTask.session_type
        else exStartTask.points_session_type) ∧
    (taskScoringCategory 1 exTerminalState = some "sprint" ∧
      taskSessionType 1 exTerminalState = some "parc") :=
  ⟨c5_scoring_category_amended.1 exBucketAndFinishPayload 5 exStartState
      (step exBucketAndFinishOp exStartState) exStartTask (by decide) (by decide),
    c5_scoring_category_amended.2.1 exStartState exTerminalState 1 10 exStartTask
      (by decide) (by decide)⟩

/-- C6: counterexample to "after finishTask completes, no notification
ever fires for that task id" — after the deadline task is finished (timer
cleared), a later `incLap`-style update resets its status to `progress`
and re-arms the deadline timer, and the notification fires at the 10:00
target. -/
theorem c6_notification_counterexample :
    taskStatus 1 exDeadlineFinished = some "finish" ∧
    timerFor 1 exDeadlineFinished = none ∧
    notifFiresB 1 [exReviveOp, exFireOp] exDeadlineFinished = true := by
  decide

/-- C6 (amended): timer ids are pairwise distinct in every reachable
state (at most one pending timer per task id); finish, dnf and delete all
leave no pending timer for the id; after deleteTask no notification for
the id ever fires under any subsequent operations; after finishTask or
dnfTask none fires along any subsequent trace unless an update explicitly
resets the task's status to a non-terminal value. -/
theorem c6_notification_amended :
    (∀ ops : List Op, (((runOps ops initSys).timers).map Timer.id).Nodup) ∧
    (∀ (s s' : Sys) (id : Nat) (now : Int),
      tasksFinish id now s = .ok s' → timerFor id s' = none) ∧
    (∀ (s s' : Sys) (id : Nat) (now : Int),
      tasksDnf id now s = .ok s' → timerFor id s' = none) ∧
    (∀ (s : Sys) (id : Nat), timerFor id (tasksDelete id s) = none) ∧
    (∀ (s : Sys) (id : Nat) (ops : List Op), id < s.nextId →
      notifFiresB id ops (tasksDelete id s) = false) ∧
    (∀ (s s' : Sys) (id : Nat) (now : Int) (ops : List Op),
      tasksFinish id now s = .ok s' → id < s.nextId →
      (∀ op ∈ ops, rearmsFor id op = false) →
      notifFiresB id ops s' = false) ∧
    (∀ (s s' : Sys) (id : Nat) (now : Int) (ops : List Op),
      tasksDnf id now s = .ok s' → id < s.nextId →
      (∀ op ∈ ops, rearmsFor id op = false) →
      notifFiresB id ops s' = false) := by
  refine ⟨?_, ?_, ?_, ?_, ?_, ?_, ?_⟩
  · intro ops
    exact (inv_runOps inv_init ops).2.2.2.2.2.1
  · intro s s' id now h
    obtain ⟨task, hcur, hs'⟩ := tasksFinish_ok h
    subst hs'
    exact timFind_clearNotif_self id s.timers
  · intro s s' id now h
    obtain ⟨task, hcur, hs'⟩ := tasksDnf_ok h
    subst hs'
    exact timFind_clearNotif_self id s.timers
  · intro s id
    exact timFind_clearNotif_self id s.timers
  · intro s id ops hlt
    refine no_fire_of_absent ops (tasksDelete id s) id hlt ?_ ?_
    · show (s.tasks.filter (fun t => t.id != id)).find? (fun t => t.id == id) = none
      rw [List.find?_eq_none]
      intro t ht
      have := (List.mem_filter.mp ht).2
      simp only [bne_iff_ne, ne_eq] at this
      simp [this]
    · exact timFind_clearNotif_self id s.timers
  · intro s s' id now ops h hlt hops
    obtain ⟨task, hcur, hs'⟩ := tasksFinish_ok h
    subst hs'
    refine no_fire_of_safe ops _ id hlt hops ?_ ?_
    · refine forall_mem_map ?_
      intro t ht hid'
      rw [finishRow_id] at hid'
      have hmatch : (t.id == id) = true := by simp [hid']
      unfold finishRow
      rw [if_pos hmatch]
      exact Or.inl rfl
    · exact timFind_clearNotif_self id s.timers
  · intro s s' id now ops h hlt hops
    obtain ⟨task, hcur, hs'⟩ := tasksDnf_ok h
    subst hs'
    refine no_fire_of_safe ops _ id hlt hops ?_ ?_
    · refine forall_mem_map ?_
      intro t ht hid'
      rw [dnfRow_id] at hid'
      have hmatch : (t.id == id) = true := by simp [hid']
      unfold dnfRow
      rw [if_pos hmatch]
      exact Or.inr rfl
    · exact timFind_clearNotif_self id s.timers

/-- C6 witness: the amended statement at the deadline example — the
finish clears the timer; no notification fires across a bulk reschedule
and the due timer callback; and after deleting the task even the
`incLap`-style revival attempt produces no notification. -/
theorem c6_notification_amended_witness :
    timerFor 1 exDeadlineFinished = none ∧
    notifFiresB 1 [.reschedule 20, exFireOp] exDeadlineFinished = false ∧
    notifFiresB 1 [exReviveOp, exFireOp] (tasksDelete 1 exDeadlineFinished) = false :=
  ⟨c6_notification_amended.2.1 (runOps [exDeadlineCreateOp] initSys)
      exDeadlineFinished 1 5 (by decide),
    c6_notification_amended.2.2.2.2.2.1 (runOps [exDeadlineCreateOp] initSys)
      exDeadlineFinished 1 5 [.reschedule 20, exFireOp] (by decide) (by decide)
      (by decide),
    c6_notification_amended.2.2.2.2.1 exDeadlineFinished 1 [exReviveOp, exFireOp]
      (by decide)⟩

/-- C7: counterexample — `tasks:update` persists a whitespace-only title
as the empty string for an existing task; only `tasks:create` rejects
empty titles. -/
theorem c7_title_counterexample :
    taskTitle 1 exStartState = some "t" ∧
    tasksUpdate exEmptyTitlePayload 5 exStartState =
      .ok (step exEmptyTitleOp exStartState) ∧
    taskTitle 1 (step exEmptyTitleOp exStartState) = some "" := by
  decide

/-- C7 (amended): `tasks:create` rejects a title that is empty after
trimming and persists nothing; `tasks:update` without a title field
preserves the stored title; but `tasks:update` with a title field stores
the trimmed payload title verbatim, with no emptiness check — so an
empty-after-trim title is persisted. -/
theorem c7_title_amended :
    (∀ (p : CreatePayload) (now : Int) (s : Sys),
      jsTrim (p.title.getD "") = "" →
      tasksCreate p now s = .error .titleRequired) ∧
    (∀ (p : UpdatePayload) (now : Int) (s s' : Sys),
      tasksUpdate p now s = .ok s' → p.title = none →
      taskTitle p.id s' = taskTitle p.id s) ∧
    (∀ (p : UpdatePayload) (now : Int) (s s' : Sys) (v : String),
      tasksUpdate p now s = .ok s' → p.title = some v →
      taskTitle p.id s' = some (jsTrim v)) := by
  refine ⟨?_, ?_, ?_⟩
  · intro p now s h
    unfold tasksCreate
    rw [if_pos]
    simpa using h
  · intro p now s s' h ht
    obtain ⟨current, hcur, hs'⟩ := tasksUpdate_ok h
    subst hs'
    have hmatch : (current.id == p.id) = true := by
      simpa using List.find?_some hcur
    unfold taskTitle findTask
    dsimp only
    rw [find?_map_idpres _ (updateRow_id p current)]
    unfold findTask at hcur
    rw [hcur]
    simp only [Option.map_some']
    unfold updateRow
    rw [if_pos hmatch]
    simp [optUpd, ht]
  · intro p now s s' v h ht
    obtain ⟨current, hcur, hs'⟩ := tasksUpdate_ok h
    subst hs'
    have hmatch : (current.id == p.id) = true := by
      simpa using List.find?_some hcur
    unfold taskTitle findTask
    dsimp only
    rw [find?_map_idpres _ (updateRow_id p current)]
    unfold findTask at hcur
    rw [hcur]
    simp only [Option.map_some']
    unfold updateRow
    rw [if_pos hmatch]
    simp [optUpd, ht]

/-- C7 witness: a whitespace-only create is rejected; an update without a
title keeps `t`; the whitespace-title update stores the empty trim. -/
theorem c7_title_amended_witness :
    tasksCreate { title := some "  " } 0 initSys = .error .titleRequired ∧
    taskTitle 1 (step exNoStatusOp exStartState) = taskTitle 1 exStartState ∧
    taskTitle 1 (step exEmptyTitleOp exStartState) = some (jsTrim " ") :=
  ⟨c7_title_amended.1 { title := some "  " } 0 initSys (by decide),
    c7_title_amended.2.1 exNoStatusPayload 20 exStartState
      (step exNoStatusOp exStartState) (by decide) (by decide),
    c7_title_amended.2.2 exEmptyTitlePayload 5 exStartState
      (step exEmptyTitleOp exStartState) " " (by decide) (by decide)⟩

/-- C10: counterexample — shrinking `laps_total` to 5 without resending
`laps_done` leaves the stored 8 completed laps above the new total, so
`laps_done ≤ laps_total` does not hold after every write. -/
theorem c10_laps_counterexample :
    taskLapsTotal 1 (runOps exShrinkOps initSys) = some 5 ∧
    taskLapsDone 1 (runOps exShrinkOps initSys) = some 8 ∧
    ¬((8 : Int) ≤ (5 : Int)) := by
  decide

/-- C10 (amended): a non-finite payload number clamps to the lower bound;
after `tasks:create` the new row satisfies `1 ≤ laps_total ≤ 999` and
`0 ≤ laps_done ≤ laps_total`; after `tasks:update` every row still
satisfies `1 ≤ laps_total ≤ 999` and `0 ≤ laps_done`, and the updated row
additionally satisfies `laps_done ≤ laps_total` whenever the payload
carries `laps_done` — absent that field a shrink of `laps_total` can leave
`laps_done` above it. -/
theorem c10_laps_amended :
    (∀ lo hi : Int, clampInt .nan lo hi = lo) ∧
    (∀ (p : CreatePayload) (now : Int) (s s' : Sys) (newId : Nat),
      tasksCreate p now s = .ok (s', newId) →
      ∀ lt ld : Int, taskLapsTotal newId s' = some lt →
        taskLapsDone newId s' = some ld →
        1 ≤ lt ∧ lt ≤ 999 ∧ 0 ≤ ld ∧ ld ≤ lt) ∧
    (∀ (p : UpdatePayload) (now : Int) (s s' : Sys), Inv s →
      tasksUpdate p now s = .ok s' →
      ∀ t ∈ s'.tasks, 1 ≤ t.laps_total ∧ t.laps_total ≤ 999 ∧ 0 ≤ t.laps_done ∧
        (p.laps_done.isSome = true → t.id = p.id → t.laps_done ≤ t.laps_total)) := by
  refine ⟨?_, ?_, ?_⟩
  · intro lo hi
    rfl
  · intro p now s s' newId h lt ld hlt hld
    obtain ⟨hs', hnew⟩ := tasksCreate_ok h
    subst hs'
    subst hnew
    have hhead : ((newTaskOf p now s.nextId).id == s.nextId) = true := by
      simp [newTaskOf]
    unfold taskLapsTotal findTask at hlt
    unfold taskLapsDone findTask at hld
    dsimp only at hlt hld
    simp only [List.find?_cons, hhead] at hlt hld
    simp only [Option.map_some', Option.some.injEq] at hlt hld
    subst hlt
    subst hld
    have h1 : (1 : Int) ≤ clampInt (p.laps_total.getD (.fin 1)) 1 999 :=
      clampInt_lower _ _ _ (by norm_num)
    refine ⟨h1, clampInt_upper _ _ _ (by norm_num), ?_, ?_⟩
    · exact clampInt_lower _ _ _ (le_trans (by norm_num) h1)
    · exact clampInt_upper _ _ _ (le_trans (by norm_num) h1)
  · intro p now s s' hinv h t ht
    obtain ⟨current, hcur, hs'⟩ := tasksUpdate_ok h
    subst hs'
    have hcurmem : current ∈ s.tasks := List.mem_of_find?_eq_some hcur
    have h5 := hinv.2.2.2.2.1
    have hlt1 : (1 : Int) ≤ optUpd p.laps_total (fun v => clampInt v 1 999)
        current.laps_total := by
      cases p.laps_total with
      | none => exact (h5 current hcurmem).1
      | some v => exact clampInt_lower _ _ _ (by norm_num)
    have hlt999 : optUpd p.laps_total (fun v => clampInt v 1 999)
        current.laps_total ≤ 999 := by
      cases p.laps_total with
      | none => exact (h5 current hcurmem).2.1
      | some v => exact clampInt_upper _ _ _ (by norm_num)
    revert t ht
    refine fun t ht => ?_
    rcases List.mem_map.mp ht with ⟨t0, ht0, rfl⟩
    by_cases hmatch : (t0.id == p.id) = true
    · unfold updateRow
      rw [if_pos hmatch]
      refine ⟨hlt1, hlt999, ?_, ?_⟩
      · cases p.laps_done with
        | none => exact (h5 current hcurmem).2.2
        | some v => exact clampInt_lower _ _ _ (le_trans (by norm_num) hlt1)
      · cases p.laps_done with
        | none =>
          intro hsome _
          simp at hsome
        | some v =>
          intro _ _
          exact clampInt_upper _ _ _ (le_trans (by norm_num) hlt1)
    · have hmatch' : (t0.id == p.id) = false := by
        simpa using hmatch
      rw [updateRow_other hmatch']
      refine ⟨(h5 t0 ht0).1, (h5 t0 ht0).2.1, (h5 t0 ht0).2.2, ?_⟩
      intro _ hid'
      rw [hid'] at hmatch'
      simp at hmatch'

/-- C10 witness: the create of the shrink example satisfies all four
bounds (10 of 999 total, 8 of 10 done), and the lap-count update of the
plain example keeps its row inside the bounds with `laps_done ≤
laps_total` since the payload carries `laps_done`. -/
theorem c10_laps_amended_witness :
    ((1 : Int) ≤ 10 ∧ (10 : Int) ≤ 999 ∧ (0 : Int) ≤ 8 ∧ (8 : Int) ≤ 10) ∧
    (1 ≤ exNoStatusUpdatedTask.laps_total ∧
      exNoStatusUpdatedTask.laps_total ≤ 999 ∧
      0 ≤ exNoStatusUpdatedTask.laps_done ∧
      (exNoStatusPayload.laps_done.isSome = true →
        exNoStatusUpdatedTask.id = exNoStatusPayload.id →
        exNoStatusUpdatedTask.laps_done ≤ exNoStatusUpdatedTask.laps_total)) :=
  ⟨(c10_laps_amended.2.1 exShrinkCreatePayload 0 initSys
      (runOps [.create exShrinkCreatePayload 0] initSys) 1 (by decide) 10 8
      (by decide) (by decide)),
    (c10_laps_amended.2.2 exNoStatusPayload 20 exStartState
      (step exNoStatusOp exStartState) (by decide) (by decide)
      exNoStatusUpdatedTask (by decide))⟩

/-- C8: counterexample — `f1:schedule` treats a well-formed body with zero
races as a success (it has no second endpoint and no at-least-one-fixture
check), and the renderer then replaces even a stale non-empty cache entry
with the empty result instead of retaining it. -/
theorem c8_schedule_counterexample :
    f1Schedule (some []) = .ok [] ∧
    calendarVisit (some { ts := -100000000, data := [normalizeRace sampleRace] })
        0 (some []) = ([], some { ts := 0, data := [] }, 1) := by
  decide

/-- C8 (amended): `f1:next` tries its two endpoints in order — a failed
fetch, a malformed body, or an empty race list moves to the next endpoint,
the first response with a race wins, and when every endpoint has failed
the handler throws; `f1:schedule` queries a single endpoint, throws only
on a fetch/HTTP failure (leaving the renderer cache untouched in that
case), and returns a well-formed empty body as a successful empty
schedule. -/
theorem c8_schedule_amended :
    (∀ (r : RaceData) (races : List RaceData) (rest : List EndpointResult),
      f1Next (some (r :: races) :: rest) = .ok (normalizeNext r)) ∧
    (∀ rest : List EndpointResult, f1Next (none :: rest) = f1Next rest) ∧
    (∀ rest : List EndpointResult, f1Next (some [] :: rest) = f1Next rest) ∧
    f1Next [] = .error .nextFailed ∧
    (∀ races : List RaceData,
      f1Schedule (some races) = .ok (races.map normalizeRace)) ∧
    f1Schedule none = .error .httpStatus ∧
    (∀ (cache : Option CacheEntry) (now : Int),
      calendarVisit cache now none =
        (loadSchedCache cache now, cache,
          if (loadSchedCache cache now).isEmpty then 1 else 0)) := by
  refine ⟨fun r races rest => rfl, fun rest => rfl, fun rest => rfl, rfl,
    fun races => rfl, rfl, ?_⟩
  intro cache now
  unfold calendarVisit
  by_cases h : (loadSchedCache cache now).isEmpty
  · rw [if_pos h, if_pos h]
    rfl
  · rw [if_neg h, if_neg h]

/-- C9: counterexample — a perfectly fresh cache entry whose stored data
is empty does not short-circuit the call: the renderer treats it as
absent, performs a network fetch, and returns (and caches) the fetched
data instead of the cached entry. -/
theorem c9_cache_counterexample :
    (1000 : Int) - 0 ≤ freshnessWindowMs ∧
    loadSchedCache (some { ts := 0, data := [] }) 1000 = [] ∧
    (calendarVisit (some { ts := 0, data := [] }) 1000 (some [sampleRace])).2.2 = 1 ∧
    (calendarVisit (some { ts := 0, data := [] }) 1000 (some [sampleRace])).1 =
      [normalizeRace sampleRace] := by
  decide

/-- C9 (amended): a fresh cache entry holding at least one fixture is
returned unchanged with no network fetch; and when the first call misses
the cache and the upstream returns at least one fixture, a second call
within the freshness window of the first returns the identical list from
the cache, for one network fetch across the two calls. -/
theorem c9_cache_amended :
    (∀ (c : CacheEntry) (now : Int) (upstream : EndpointResult),
      now - c.ts ≤ freshnessWindowMs → c.data ≠ [] →
      calendarVisit (some c) now upstream = (c.data, some c, 0)) ∧
    (∀ (cache0 : Option CacheEntry) (now1 now2 : Int) (races : List RaceData),
      loadSchedCache cache0 now1 = [] →
      races.map normalizeRace ≠ [] →
      now2 - now1 ≤ freshnessWindowMs →
      calendarVisit cache0 now1 (some races) =
          (races.map normalizeRace,
            some { ts := now1, data := races.map normalizeRace }, 1) ∧
        calendarVisit (some { ts := now1, data := races.map normalizeRace })
            now2 (some races) =
          (races.map normalizeRace,
            some { ts := now1, data := races.map normalizeRace }, 0)) := by
  have hfresh : ∀ (c : CacheEntry) (now : Int) (upstream : EndpointResult),
      now - c.ts ≤ freshnessWindowMs → c.data ≠ [] →
      calendarVisit (some c) now upstream = (c.data, some c, 0) := by
    intro c now upstream hage hdata
    have hload : loadSchedCache (some c) now = c.data := by
      unfold loadSchedCache
      dsimp only
      rw [if_neg]
      exact not_lt_of_le hage
    unfold calendarVisit
    rw [hload, if_neg]
    simpa using hdata
  refine ⟨hfresh, ?_⟩
  intro cache0 now1 now2 races hmiss hdata hage
  constructor
  · unfold calendarVisit
    rw [hmiss]
    rw [if_pos]
    · rfl
    · rfl
  · exact hfresh { ts := now1, data := races.map normalizeRace } now2 (some races)
      (by simpa using hage) hdata

/-- C9 witness: the fresh non-empty entry is served without a fetch, and
the cold-cache two-call scenario fetches once and then serves the cache. -/
theorem c9_cache_amended_witness :
    calendarVisit (some { ts := 0, data := [normalizeRace sampleRace] }) 500 none =
      ([normalizeRace sampleRace],
        some { ts := 0, data := [normalizeRace sampleRace] }, 0) ∧
    (calendarVisit none 0 (some [sampleRace]) =
        ([normalizeRace sampleRace],
          some { ts := 0, data := [normalizeRace sampleRace] }, 1) ∧
      calendarVisit (some { ts := 0, data := [normalizeRace sampleRace] })
          1000 (some [sampleRace]) =
        ([normalizeRace sampleRace],
          some { ts := 0, data := [normalizeRace sampleRace] }, 0)) :=
  ⟨c9_cache_amended.1 { ts := 0, data := [normalizeRace sampleRace] } 500 none
      (by decide) (by decide),
    c9_cache_amended.2 none 0 1000 [sampleRace] (by decide) (by decide) (by decide)⟩

end F1Tracker
